import Mathlib

/-
Verification of the distributed sparsity-pattern builder
(src/cpp/dolfin/la/SparsityPattern.cpp).

The data model and operations below are a shallow embedding of the C++
source.  Machine integers (std::size_t, la_index_t) are modelled as Nat:
all claims concern regimes where the C++ values are non-negative and far
from overflow.  std::vector<ArraySet> fields become List (Finset Nat)
(ArraySet is a duplicate-free collection whose reported order is only
used through the sorted output paths).  std::set<std::size_t> becomes
Finset Nat; iteration over a std::set visits elements in ascending
order, modelled via Finset.sort.  Fallible code returns Except.
-/

namespace SparsityModel

instance {ε α : Type} [DecidableEq ε] [DecidableEq α] :
    DecidableEq (Except ε α) := fun a b =>
  match a, b with
  | Except.error e1, Except.error e2 =>
    if h : e1 = e2 then Decidable.isTrue (by rw [h])
    else Decidable.isFalse (by intro hc; injection hc; contradiction)
  | Except.error _, Except.ok _ =>
    Decidable.isFalse (by intro hc; exact Except.noConfusion hc)
  | Except.ok _, Except.error _ =>
    Decidable.isFalse (by intro hc; exact Except.noConfusion hc)
  | Except.ok a1, Except.ok a2 =>
    if h : a1 = a2 then Decidable.isTrue (by rw [h])
    else Decidable.isFalse (by intro hc; injection hc; contradiction)

/-- Modelled from the spec: dolfin/common/IndexMap.h is not under src/.
Per spec sections 3 and 6 an IndexMap carries a block size (entries per
node), an owned local range [range_start, range_end) in node units, the
ghost node list with the owning process of each ghost, and a global node
count.  Sizes: OWNED = range_end - range_start, ALL = OWNED + #ghosts,
GLOBAL = global_size. -/
structure IndexMap where
  block_size : Nat
  range_start : Nat
  range_end : Nat
  ghosts : List Nat
  ghost_owners : List Nat
  global_size : Nat
deriving DecidableEq

instance : Inhabited IndexMap := ⟨⟨1, 0, 0, [], [], 0⟩⟩

def IndexMap.size_owned (m : IndexMap) : Nat := m.range_end - m.range_start

def IndexMap.size_all (m : IndexMap) : Nat := m.size_owned + m.ghosts.length

/-- Modelled from the spec: the IndexMap local-to-global node lookup used
by the insert_local column map ("translated to a global element index via
the column IndexMap's local-to-global node lookup combined with the
within-block component offset").  Returns the first global element index
of the node holding local node `index`: an owned node maps through the
local range, a ghost node through the ghost list. -/
def IndexMap.local_to_global (m : IndexMap) (index : Nat) : Nat :=
  if index < m.size_owned then m.block_size * (m.range_start + index)
  else m.block_size * (m.ghosts.getD (index - m.size_owned) 0)

/-- State of SparsityPattern: the two IndexMaps, the per-local-row
diagonal and off-diagonal column sets (_diagonal, _off_diagonal), the
full-row marker set (_full_rows), and the non-local buffer (_non_local,
a flat even-length vector in C++, read and written strictly in
(row, column) pairs, modelled as a list of pairs).  mpi_size and rank
model _mpi_comm.size() and _mpi_comm.rank(). -/
structure SparsityPattern where
  mpi_size : Nat
  rank : Nat
  im0 : IndexMap
  im1 : IndexMap
  diagonal : List (Finset Nat)
  off_diagonal : List (Finset Nat)
  full_rows : Finset Nat
  non_local : List (Nat × Nat)
deriving DecidableEq

instance : Inhabited SparsityPattern :=
  ⟨⟨1, 0, default, default, [], [], ∅, []⟩⟩

/-- The fresh constructor (SparsityPattern.cpp lines 18-29): resizes both
_diagonal and _off_diagonal to block_size0 * owned node count. -/
def SparsityPattern.create (mpi_size rank : Nat) (im0 im1 : IndexMap) :
    SparsityPattern :=
  let local_size0 := im0.block_size * im0.size_owned
  ⟨mpi_size, rank, im0, im1,
   List.replicate local_size0 ∅, List.replicate local_size0 ∅, ∅, []⟩

/-- bs0 * owned node count: the number of locally owned row elements,
the common size of _diagonal and _off_diagonal for a fresh pattern. -/
def SparsityPattern.local_size0 (sp : SparsityPattern) : Nat :=
  sp.im0.block_size * sp.im0.size_owned

/-- Inner column-loop body of insert_entries in parallel mode for a
locally owned mapped row I (lines 288-303): route the mapped column J to
the diagonal set when it lies in the owned column element range, to the
off-diagonal set otherwise. -/
def insertColLocal (index_map1 : IndexMap) (col_map : Nat → IndexMap → Nat)
    (I : Nat) (st2 : SparsityPattern) (j_index : Nat) : SparsityPattern :=
  let J := col_map j_index index_map1
  if index_map1.block_size * index_map1.range_start ≤ J
      ∧ J < index_map1.block_size * index_map1.range_end then
    { st2 with diagonal := st2.diagonal.set I (insert J (st2.diagonal.getD I ∅)) }
  else
    { st2 with off_diagonal :=
        st2.off_diagonal.set I (insert J (st2.off_diagonal.getD I ∅)) }

/-- Inner column-loop body of insert_entries in parallel mode for a
non-local mapped row I (lines 305-316): push the pair (I, J). -/
def insertColNonLocal (index_map1 : IndexMap) (col_map : Nat → IndexMap → Nat)
    (I : Nat) (st2 : SparsityPattern) (j_index : Nat) : SparsityPattern :=
  let J := col_map j_index index_map1
  { st2 with non_local := st2.non_local ++ [(I, J)] }

/-- Outer row-loop body of insert_entries in parallel mode (lines
274-317): map the row, skip full rows, then run the column loop for a
local or non-local row. -/
def insertRowPar (index_map0 index_map1 : IndexMap) (full_rows : Finset Nat)
    (row_map col_map : Nat → IndexMap → Nat) (cols : List Nat)
    (st : SparsityPattern) (i_index : Nat) : SparsityPattern :=
  let I := row_map i_index index_map0
  if 0 < full_rows.card ∧ I ∈ full_rows then st
  else if I < index_map0.block_size * index_map0.size_owned then
    cols.foldl (insertColLocal index_map1 col_map I) st
  else
    cols.foldl (insertColNonLocal index_map1 col_map I) st

/-- SparsityPattern::insert_entries (lines 223-319).  In sequential mode
the full-row test uses the loop position `i`, exactly as the C++ does
(`_full_rows.find(i)` with the loop counter), and inserts the raw column
values; in parallel mode row_map/col_map are applied and entries are
routed to _diagonal, _off_diagonal or _non_local. -/
def SparsityPattern.insert_entries (sp : SparsityPattern)
    (rows cols : List Nat)
    (row_map : Nat → IndexMap → Nat) (col_map : Nat → IndexMap → Nat) :
    SparsityPattern :=
  let index_map0 := sp.im0
  let index_map1 := sp.im1
  let has_full_rows := 0 < sp.full_rows.card
  if sp.mpi_size = 1 then
    (List.range rows.length).foldl (fun st i =>
      let i_index := rows.getD i 0
      if ¬has_full_rows ∨ i ∉ sp.full_rows then
        { st with diagonal :=
            st.diagonal.set i_index ((st.diagonal.getD i_index ∅) ∪ cols.toFinset) }
      else st) sp
  else
    rows.foldl (insertRowPar index_map0 index_map1 sp.full_rows row_map col_map cols) sp

/-- SparsityPattern::insert_global (lines 162-182): the row map subtracts
the owned-block global element offset, the column map is the identity. -/
def SparsityPattern.insert_global (sp : SparsityPattern)
    (rows cols : List Nat) : SparsityPattern :=
  sp.insert_entries rows cols
    (fun i_index index_map0 =>
      i_index - index_map0.block_size * index_map0.range_start)
    (fun j_index _ => j_index)

/-- SparsityPattern::insert_local (lines 184-204): the row map is the
identity, the column map splits the local column into node and component
and maps the node to global. -/
def SparsityPattern.insert_local (sp : SparsityPattern)
    (rows cols : List Nat) : SparsityPattern :=
  sp.insert_entries rows cols
    (fun i_index _ => i_index)
    (fun j_index index_map1 =>
      index_map1.local_to_global (j_index / index_map1.block_size)
        + j_index % index_map1.block_size)

/-- SparsityPattern::insert_local_global (lines 206-221): both maps are
the identity. -/
def SparsityPattern.insert_local_global (sp : SparsityPattern)
    (rows cols : List Nat) : SparsityPattern :=
  sp.insert_entries rows cols (fun i_index _ => i_index) (fun j_index _ => j_index)

/-- SparsityPattern::insert_full_rows_local (lines 321-333): add each
given local row index to _full_rows. -/
def SparsityPattern.insert_full_rows_local (sp : SparsityPattern)
    (rows : List Nat) : SparsityPattern :=
  rows.foldl (fun st r => { st with full_rows := insert r st.full_rows }) sp

/-- SparsityPattern::num_nonzeros (lines 350-373): diagonal and
off-diagonal set sizes, plus the global column element count for each
full row below local_size0. -/
def SparsityPattern.num_nonzeros (sp : SparsityPattern) : Nat :=
  let nz1 := sp.diagonal.foldl (fun a s => a + s.card) 0
  let nz2 := sp.off_diagonal.foldl (fun a s => a + s.card) nz1
  let ncols := sp.im1.block_size * sp.im1.global_size
  (sp.full_rows.sort (· ≤ ·)).foldl
    (fun a r => if r < sp.local_size0 then a + ncols else a) nz2

/-- SparsityPattern::num_nonzeros_diagonal (lines 375-399): per-row
diagonal set sizes; each full row below local_size0 is overwritten with
the owned column element count. -/
def SparsityPattern.num_nonzeros_diagonal (sp : SparsityPattern) : List Nat :=
  let base := sp.diagonal.map Finset.card
  if 0 < sp.full_rows.card then
    let ncols := sp.im1.block_size * sp.im1.size_owned
    (sp.full_rows.sort (· ≤ ·)).foldl
      (fun v r => if r < sp.local_size0 then v.set r ncols else v) base
  else base

/-- SparsityPattern::num_nonzeros_off_diagonal (lines 401-438): per-row
off-diagonal set sizes; each full row below local_size0 is overwritten
with the global-minus-owned column element count. -/
def SparsityPattern.num_nonzeros_off_diagonal (sp : SparsityPattern) : List Nat :=
  let base := sp.off_diagonal.map Finset.card
  if sp.off_diagonal.isEmpty then base
  else if 0 < sp.full_rows.card then
    let ncols := sp.im1.block_size * sp.im1.global_size
      - sp.im1.block_size * sp.im1.size_owned
    (sp.full_rows.sort (· ≤ ·)).foldl
      (fun v r => if r < sp.local_size0 then v.set r ncols else v) base
  else base

/-- SparsityPattern::diagonal_pattern with Type::sorted (lines 587-620):
each row's diagonal set in ascending order; full rows below local_size0
are replaced by the full owned column element range. -/
def SparsityPattern.diagonal_pattern_sorted (sp : SparsityPattern) :
    List (List Nat) :=
  let v := sp.diagonal.map (fun s => s.sort (· ≤ ·))
  if 0 < sp.full_rows.card then
    let bs1 := sp.im1.block_size
    let lo := bs1 * sp.im1.range_start
    let hi := bs1 * sp.im1.range_end
    (sp.full_rows.sort (· ≤ ·)).foldl
      (fun w r =>
        if r < sp.local_size0 then
          w.set r ((List.range (hi - lo)).map (fun k => lo + k))
        else w) v
  else v

/-- SparsityPattern::off_diagonal_pattern with Type::sorted (lines
622-659): each row's off-diagonal set in ascending order; full rows
below local_size0 are replaced by the complement of the owned column
element range within the global range. -/
def SparsityPattern.off_diagonal_pattern_sorted (sp : SparsityPattern) :
    List (List Nat) :=
  let v := sp.off_diagonal.map (fun s => s.sort (· ≤ ·))
  if 0 < sp.full_rows.card then
    let bs1 := sp.im1.block_size
    let lo := bs1 * sp.im1.range_start
    let hi := bs1 * sp.im1.range_end
    let N1 := bs1 * sp.im1.global_size
    (sp.full_rows.sort (· ≤ ·)).foldl
      (fun w r =>
        if r < sp.local_size0 then
          w.set r ((List.range lo).map (fun k => k)
            ++ (List.range (N1 - hi)).map (fun k => hi + k))
        else w) v
  else v

/-- First phase of SparsityPattern::apply (lines 472-517): resolve every
buffered pair to (destination process, (global row, global column)).
The destination is the ghost owner of the row's ghost slot; the global
row is recomputed from the ghost list.  The `i_index < local_size0`
branch is kept from the source even though buffered rows always satisfy
i_index >= local_size0 (the code asserts this). -/
def SparsityPattern.non_local_send_pairs (sp : SparsityPattern) :
    List (Nat × (Nat × Nat)) :=
  let local_size0 := sp.im0.block_size * sp.im0.size_owned
  let dim_block_size := sp.im0.block_size
  let offset0 := dim_block_size * sp.im0.range_start
  sp.non_local.map (fun e =>
    let i_index := e.1
    let J := e.2
    let i_offset := (i_index - local_size0) / dim_block_size
    let p := sp.im0.ghost_owners.getD i_offset 0
    let I :=
      if i_index < local_size0 then i_index + offset0
      else
        let tmp := i_index - local_size0
        let i_node := tmp / dim_block_size
        let i_component := tmp % dim_block_size
        dim_block_size * (sp.im0.ghosts.getD i_node 0) + i_component
    (p, (I, J)))

/-- Second phase of SparsityPattern::apply (lines 526-557): for each
received (global row, global column) pair, raise the range error exactly
when `I < local_range0[0] or I >= bs0 * local_range0[1]` (note: the C++
lower bound is in node units, the upper bound in element units), else
insert at local row I - offset0 into the diagonal or off-diagonal set
according to the owned column element range. -/
def insertReceivedStep (index_map0 index_map1 : IndexMap)
    (st : SparsityPattern) (e : Nat × Nat) : Except String SparsityPattern :=
  let I := e.1
  let J := e.2
  if I < index_map0.range_start
      ∨ index_map0.block_size * index_map0.range_end ≤ I then
    Except.error
      ("Received illegal sparsity pattern entry for row/column "
        ++ toString I)
  else
    let i_index := I - index_map0.block_size * index_map0.range_start
    if index_map1.block_size * index_map1.range_start ≤ J
        ∧ J < index_map1.block_size * index_map1.range_end then
      let d := st.diagonal.set i_index (insert J (st.diagonal.getD i_index ∅))
      Except.ok { st with diagonal := d }
    else
      let o := st.off_diagonal.set i_index
        (insert J (st.off_diagonal.getD i_index ∅))
      Except.ok { st with off_diagonal := o }

def SparsityPattern.insert_received (sp : SparsityPattern)
    (received : List (Nat × Nat)) : Except String SparsityPattern :=
  received.foldlM (insertReceivedStep sp.im0 sp.im1) sp

/-- SparsityPattern::apply (lines 452-562) for one process, given the
aggregated inbound buffer of the all-to-all exchange: in parallel mode
insert the received entries, then clear the non-local buffer; in
sequential mode only clear the buffer. -/
def SparsityPattern.apply_with (sp : SparsityPattern)
    (received : List (Nat × Nat)) : Except String SparsityPattern :=
  if 1 < sp.mpi_size then
    match sp.insert_received received with
    | Except.error e => Except.error e
    | Except.ok st => Except.ok { st with non_local := [] }
  else Except.ok { sp with non_local := [] }

/-- Modelled from the spec: the MPI all-to-all exchange (dolfin
MPI::all_to_all is not under src/).  Per spec section 6 it takes one
outgoing buffer per destination rank and returns one aggregated inbound
buffer: process p receives the concatenation, in rank order, of every
process's pairs addressed to p. -/
def system_received (sys : List SparsityPattern) (p : Nat) :
    List (Nat × Nat) :=
  (sys.map (fun sq =>
    ((sq.non_local_send_pairs.filter (fun e => e.1 = p)).map (fun e => e.2)))).flatten

/-- One collective apply step: every process resolves and sends its
buffered entries, then inserts what it receives. -/
def system_apply (sys : List SparsityPattern) :
    Except String (List SparsityPattern) :=
  (List.range sys.length).mapM
    (fun p => (sys.getD p default).apply_with (system_received sys p))

/-- Modelled from the spec: fem::get_global_index (dolfin/fem/utils) is
not under src/.  Per spec section 4.4 the merge constructor re-bases a
sub-block column index to the composite numbering by "the cumulative
column block-offset, resolved through the column IndexMaps": the offset
of block `col` is the total element count of the preceding column
blocks. -/
def get_global_index (cmaps : List IndexMap) (col : Nat) (c : Nat) : Nat :=
  c + ((cmaps.take col).map (fun m => m.block_size * m.global_size)).sum

/-- The composite _diagonal/_off_diagonal under construction in the
merge constructor (lines 31-160). -/
structure MergeState where
  diagonal : List (Finset Nat)
  off_diagonal : List (Finset Nat)
deriving DecidableEq

/-- The k-loop of the merge constructor for one stored block: for every
local row k of the sub-block, insert the re-based columns into composite
row k + row_local_offset. -/
def merge_block_insert (d : List (Finset Nat)) (off : Nat)
    (src : List (Finset Nat)) (f : Nat → Nat) : List (Finset Nat) :=
  (List.range src.length).foldl
    (fun w k => w.set (k + off) ((w.getD (k + off) ∅) ∪ (src.getD k ∅).image f)) d

/-- The body of the merge constructor's column loop (lines 92-144): check
that the sub-pattern is finalised (throwing the C++ runtime_error
otherwise; the error value carries the composite state at the moment of
the throw), then merge its diagonal and, when distributed, off-diagonal
entries. -/
def merge_block (distributed : Bool) (cmaps : List IndexMap)
    (row_local_offset : Nat) (st : MergeState) (col : Nat)
    (p : SparsityPattern) : Except (String × MergeState) MergeState :=
  if p.non_local ≠ [] then
    Except.error
      ("Sub-sparsity pattern has not been finalised (apply needs to be called)",
       st)
  else
    Except.ok
      ⟨merge_block_insert st.diagonal row_local_offset p.diagonal
         (get_global_index cmaps col),
       if distributed then
         merge_block_insert st.off_diagonal row_local_offset p.off_diagonal
           (get_global_index cmaps col)
       else st.off_diagonal⟩

/-- The body of the merge constructor's block-row loop (lines 74-148):
extend the composite storage by the block row's local row count, merge
each block of the row, and advance the row offset. -/
def merge_row (distributed : Bool) (cmaps : List IndexMap)
    (acc : MergeState × Nat) (rowPats : List SparsityPattern) :
    Except (String × MergeState) (MergeState × Nat) :=
  match rowPats.enum.foldlM
      (fun st cp => merge_block distributed cmaps acc.2 st cp.1 cp.2)
      ⟨acc.1.diagonal
         ++ List.replicate (rowPats.getD 0 default).im0.size_owned ∅,
       if distributed then
         acc.1.off_diagonal
           ++ List.replicate (rowPats.getD 0 default).im0.size_owned ∅
       else acc.1.off_diagonal⟩ with
  | Except.error e => Except.error e
  | Except.ok st =>
    Except.ok (st, acc.2 + (rowPats.getD 0 default).im0.size_owned)

/-- Modelled from the spec: the IndexMap constructor used for the merged
pattern (common::IndexMap(comm, local_size, ghosts, 1) is not under
src/).  Per spec sections 4.4 and 6 the composite maps have block size
1, empty ghost lists, and cover the summed local sizes; on a single
process the owned range is [0, local_size). -/
def IndexMap.create_simple (local_size : Nat) : IndexMap :=
  ⟨1, 0, local_size, [], [], local_size⟩

/-- The merge (block-composer) constructor (lines 31-160): compute the
summed row and column local sizes, take the column IndexMaps from the
first block row, merge every block in row-major order, and build the
composite pattern with fresh IndexMaps, empty full-row set and empty
non-local buffer. -/
def SparsityPattern.merge (comm_size comm_rank : Nat)
    (patterns : List (List SparsityPattern)) :
    Except (String × MergeState) SparsityPattern :=
  match patterns.foldlM
      (fun acc r => merge_row (decide (1 < comm_size))
        ((patterns.getD 0 []).map (fun p => p.im1)) acc r)
      (⟨[], []⟩, 0) with
  | Except.error e => Except.error e
  | Except.ok st =>
    Except.ok
      ⟨comm_size, comm_rank,
       IndexMap.create_simple
         ((patterns.map (fun r => (r.getD 0 default).im0.size_owned)).sum),
       IndexMap.create_simple
         (((patterns.getD 0 []).map (fun p => p.im1.size_owned)).sum),
       st.1.diagonal, st.1.off_diagonal, ∅, []⟩

/-- The global element row that a (possibly ghosted) local element row
refers to: owned rows shift by the owned-block offset, ghost rows map
through the ghost list.  This is the computation apply() performs on
each buffered row (lines 499-512). -/
def IndexMap.global_row (m : IndexMap) (i : Nat) : Nat :=
  let ls0 := m.block_size * m.size_owned
  if i < ls0 then m.block_size * m.range_start + i
  else m.block_size * (m.ghosts.getD ((i - ls0) / m.block_size) 0)
    + (i - ls0) % m.block_size

/-- All (row, column) pairs held in a diagonal/off-diagonal storage
pair. -/
def entriesOf (dg og : List (Finset Nat)) : Finset (Nat × Nat) :=
  (Finset.range dg.length).biUnion (fun i =>
    ((dg.getD i ∅) ∪ (og.getD i ∅)).image (fun J => (i, J)))

/-- All (local row, column) pairs held in the explicit diagonal and
off-diagonal sets of a pattern. -/
def SparsityPattern.entriesLocal (sp : SparsityPattern) : Finset (Nat × Nat) :=
  entriesOf sp.diagonal sp.off_diagonal

/-- The explicit entries of a pattern with rows rebased to global element
indices by the owned-block offset. -/
def SparsityPattern.entriesGlobal (sp : SparsityPattern) : Finset (Nat × Nat) :=
  sp.entriesLocal.image
    (fun e => (sp.im0.block_size * sp.im0.range_start + e.1, e.2))

/-- Run a sequence of insert_local_global calls. -/
def run_insert_local_global (sp : SparsityPattern)
    (calls : List (List Nat × List Nat)) : SparsityPattern :=
  calls.foldl (fun st c => st.insert_local_global c.1 c.2) sp

/-- Run a sequence of insert_global calls. -/
def run_insert_global (sp : SparsityPattern)
    (calls : List (List Nat × List Nat)) : SparsityPattern :=
  calls.foldl (fun st c => st.insert_global c.1 c.2) sp

/-- The distinct columns a call sequence addresses to row r (each call
is the cross product of its row and column lists). -/
def colsFor (calls : List (List Nat × List Nat)) (r : Nat) : Finset Nat :=
  (calls.map (fun c => if r ∈ c.1 then c.2.toFinset else ∅)).foldr
    (fun a b => a ∪ b) ∅

/-- The distinct (row, column) pairs a call sequence inserts. -/
def pairsOf (calls : List (List Nat × List Nat)) : Finset (Nat × Nat) :=
  (calls.map (fun c => c.1.toFinset ×ˢ c.2.toFinset)).foldr
    (fun a b => a ∪ b) ∅


/-! ### Basic list and fold lemmas -/

lemma getD_set_spec {α : Type} (l : List α) (i j : Nat) (a d : α) :
    (l.set i a).getD j d = if i = j ∧ i < l.length then a else l.getD j d := by
  simp only [List.getD_eq_getElem?_getD, List.getElem?_set]
  by_cases hij : i = j
  · subst hij
    by_cases hl : i < l.length
    · simp [hl]
    · rw [if_pos rfl, if_neg hl, if_neg (by simp [hl]),
        List.getElem?_eq_none (by omega)]
  · simp [hij]

lemma getD_append_left {α : Type} (l l2 : List α) (j : Nat) (d : α)
    (h : j < l.length) : (l ++ l2).getD j d = l.getD j d := by
  simp only [List.getD_eq_getElem?_getD]
  rw [List.getElem?_append, if_pos h]

lemma getD_append_right {α : Type} (l l2 : List α) (j : Nat) (d : α)
    (h : l.length ≤ j) : (l ++ l2).getD j d = l2.getD (j - l.length) d := by
  simp only [List.getD_eq_getElem?_getD]
  rw [List.getElem?_append_right h]

lemma getD_replicate {α : Type} (n j : Nat) (d a : α) :
    (List.replicate n a).getD j d = if j < n then a else d := by
  by_cases h : j < n
  · simp only [List.getD_eq_getElem?_getD, h, if_true]
    rw [List.getElem?_eq_getElem (by simpa using h)]
    simp [List.getElem_replicate]
  · simp only [List.getD_eq_getElem?_getD, h, if_false]
    rw [List.getElem?_eq_none (by simpa using h)]
    rfl

lemma range_map_getD {α : Type} (l : List α) (d : α) :
    (List.range l.length).map (fun i => l.getD i d) = l := by
  induction l with
  | nil => simp
  | cons a t ih =>
    rw [List.length_cons, List.range_succ_eq_map, List.map_cons, List.map_map]
    simp only [List.getD_cons_zero, Function.comp_def, List.getD_cons_succ]
    rw [ih]

lemma foldlM_except_ok {ε α β : Type} (f : β → α → Except ε β)
    (g : β → α → β) (P : α → Prop)
    (h : ∀ b a, P a → f b a = Except.ok (g b a)) :
    ∀ (l : List α) (b : β), (∀ a ∈ l, P a) →
      l.foldlM f b = Except.ok (l.foldl g b) := by
  intro l
  induction l with
  | nil => intro b _; rfl
  | cons a t ih =>
    intro b hall
    rw [List.foldlM_cons, h b a (hall a (by simp))]
    show t.foldlM f (g b a) = _
    rw [List.foldl_cons]
    exact ih (g b a) (fun x hx => hall x (by simp [hx]))

lemma mapM_except_ok {ε α β : Type} (f : α → Except ε β) (g : α → β) :
    ∀ (l : List α), (∀ a ∈ l, f a = Except.ok (g a)) →
      l.mapM f = Except.ok (l.map g) := by
  intro l
  induction l with
  | nil => intro _; rfl
  | cons a t ih =>
    intro hall
    rw [List.mapM_cons, hall a (by simp), ih (fun x hx => hall x (by simp [hx]))]
    rfl

lemma foldl_count_add (p : Nat → Prop) [DecidablePred p] (c : Nat) :
    ∀ (l : List Nat) (n : Nat),
      l.foldl (fun a r => if p r then a + c else a) n
        = n + (l.countP (fun r => decide (p r))) * c := by
  intro l
  induction l with
  | nil => intro n; simp
  | cons a t ih =>
    intro n
    rw [List.foldl_cons, List.countP_cons]
    by_cases hp : p a
    · simp only [hp, if_true, decide_eq_true_eq, ih]
      ring
    · simp only [hp, if_false, decide_eq_true_eq, ih]
      simp [hp]

lemma foldl_overwrite_length (p : Nat → Prop) [DecidablePred p] (c : Nat) :
    ∀ (l : List Nat) (v : List Nat),
      (l.foldl (fun w r => if p r then w.set r c else w) v).length = v.length := by
  intro l
  induction l with
  | nil => intro v; rfl
  | cons a t ih =>
    intro v
    rw [List.foldl_cons]
    by_cases hp : p a
    · simp only [hp, if_true]
      rw [ih, List.length_set]
    · simp only [hp, if_false]
      exact ih v

lemma foldl_overwrite_getD (p : Nat → Prop) [DecidablePred p] (c : Nat) :
    ∀ (l : List Nat) (v : List Nat) (j : Nat) (d : Nat),
      (l.foldl (fun w r => if p r then w.set r c else w) v).getD j d
        = if j ∈ l ∧ p j ∧ j < v.length then c else v.getD j d := by
  intro l
  induction l with
  | nil => intro v j d; simp
  | cons a t ih =>
    intro v j d
    rw [List.foldl_cons]
    by_cases hp : p a
    · simp only [hp, if_true]
      rw [ih, List.length_set, getD_set_spec]
      by_cases hj : j ∈ t ∧ p j ∧ j < v.length
      · simp [hj, List.mem_cons, hj.1, hj.2.1, hj.2.2]
      · by_cases haj : a = j ∧ a < v.length
        · rcases haj with ⟨rfl, hlt⟩
          simp [hj, hp, hlt]
        · simp only [hj, if_false, haj, if_false]
          have hno : ¬(j ∈ a :: t ∧ p j ∧ j < v.length) := by
            rintro ⟨hmem, hpj, hlt⟩
            rcases List.mem_cons.mp hmem with rfl | hmem2
            · exact haj ⟨rfl, hlt⟩
            · exact hj ⟨hmem2, hpj, hlt⟩
          rw [if_neg hno]
    · simp only [hp, if_false]
      rw [ih]
      by_cases hj : j ∈ t ∧ p j ∧ j < v.length
      · simp [hj, List.mem_cons, hj.1, hj.2.1, hj.2.2]
      · have h2 : ¬(j ∈ a :: t ∧ p j ∧ j < v.length) := by
          rintro ⟨hmem, hpj, hlt⟩
          rcases List.mem_cons.mp hmem with rfl | hmem2
          · exact hp hpj
          · exact hj ⟨hmem2, hpj, hlt⟩
        rw [if_neg hj, if_neg h2]

lemma foldl_add_card (l : List (Finset Nat)) :
    ∀ n : Nat, l.foldl (fun a s => a + s.card) n = n + (l.map Finset.card).sum := by
  induction l with
  | nil => intro n; simp
  | cons a t ih =>
    intro n
    rw [List.foldl_cons, List.map_cons, List.sum_cons, ih]
    ring

lemma map_sum_eq_range_sum {α : Type} (l : List α) (f : α → Nat) (d : α) :
    (l.map f).sum = (Finset.range l.length).sum (fun i => f (l.getD i d)) := by
  induction l with
  | nil => simp
  | cons a t ih =>
    rw [List.map_cons, List.sum_cons, List.length_cons, Finset.sum_range_succ']
    simp only [List.getD_cons_succ, List.getD_cons_zero]
    rw [← ih]
    ring

lemma countP_sort_eq_card_filter (s : Finset Nat) (p : Nat → Prop)
    [DecidablePred p] :
    (s.sort (fun a b => a ≤ b)).countP (fun r => decide (p r))
      = (s.filter p).card := by
  have hperm := Finset.sort_perm_toList (fun a b => a ≤ b) s
  rw [hperm.countP_eq]
  have h1 : s.toList.countP (fun r => decide (p r)) = Multiset.countP p s.val := by
    rw [← Multiset.coe_countP, Finset.coe_toList]
  rw [h1, Multiset.countP_eq_card_filter]
  rfl


/-! ### Generic getD / membership helpers -/

lemma getD_eq_get {α : Type} (l : List α) (i : Nat) (d : α)
    (h : i < l.length) : l.getD i d = l.get ⟨i, h⟩ := by
  rw [List.getD_eq_getElem?_getD, List.getElem?_eq_getElem h]
  rfl

lemma mem_list_iff_getD (rows : List Nat) (r : Nat) :
    r ∈ rows ↔ ∃ i, i < rows.length ∧ rows.getD i 0 = r := by
  constructor
  · intro h
    rcases List.mem_iff_get.mp h with ⟨⟨i, hi⟩, hget⟩
    exact ⟨i, hi, by rw [getD_eq_get rows i 0 hi, hget]⟩
  · rintro ⟨i, hi, hget⟩
    rw [← hget, getD_eq_get rows i 0 hi]
    exact List.get_mem rows i hi

/-! ### Sequential insertion characterization -/

/-- The diagonal-update fold performed by insert_entries in sequential
mode (positions `i` over the rows array, full-row set empty). -/
def seqDiagFold (d : List (Finset Nat)) (rows cols : List Nat) :
    List (Finset Nat) :=
  (List.range rows.length).foldl
    (fun w i =>
      w.set (rows.getD i 0) ((w.getD (rows.getD i 0) ∅) ∪ cols.toFinset)) d

lemma foldl_diag_update (g : List (Finset Nat) → Nat → List (Finset Nat)) :
    ∀ (l : List Nat) (st : SparsityPattern),
      l.foldl (fun st2 i => { st2 with diagonal := g st2.diagonal i }) st
        = { st with diagonal := l.foldl g st.diagonal } := by
  intro l
  induction l with
  | nil => intro st; rfl
  | cons a t ih => intro st; rw [List.foldl_cons, List.foldl_cons, ih]

lemma insert_entries_seq (sp : SparsityPattern) (rows cols : List Nat)
    (rm cm : Nat → IndexMap → Nat)
    (h1 : sp.mpi_size = 1) (hf : sp.full_rows = ∅) :
    sp.insert_entries rows cols rm cm
      = { sp with diagonal := seqDiagFold sp.diagonal rows cols } := by
  unfold SparsityPattern.insert_entries seqDiagFold
  rw [if_pos h1]
  have hc : ¬(0 < sp.full_rows.card) := by simp [hf]
  simp only [eq_false hc, not_false_eq_true, true_or, if_true]
  exact foldl_diag_update
    (fun w i => w.set (rows.getD i 0) ((w.getD (rows.getD i 0) ∅) ∪ cols.toFinset))
    (List.range rows.length) sp

lemma seqDiagFold_length (d : List (Finset Nat)) (rows cols : List Nat) :
    (seqDiagFold d rows cols).length = d.length := by
  unfold seqDiagFold
  generalize List.range rows.length = l
  induction l generalizing d with
  | nil => rfl
  | cons a t ih => rw [List.foldl_cons, ih, List.length_set]

lemma setUnionFold_getD (rows : List Nat) (cs : Finset Nat) :
    ∀ (idx : List Nat) (d : List (Finset Nat)) (r : Nat),
      ((idx.foldl
        (fun w i => w.set (rows.getD i 0) ((w.getD (rows.getD i 0) ∅) ∪ cs)) d).getD r ∅)
        = d.getD r ∅ ∪
            (if (∃ i ∈ idx, rows.getD i 0 = r) ∧ r < d.length then cs else ∅) := by
  intro idx
  induction idx with
  | nil => intro d r; simp
  | cons a t ih =>
    intro d r
    rw [List.foldl_cons, ih, List.length_set, getD_set_spec]
    by_cases hs : rows.getD a 0 = r
    · by_cases hr : r < d.length
      · rw [if_pos ⟨hs, by omega⟩]
        have hout : (∃ i ∈ a :: t, rows.getD i 0 = r) ∧ r < d.length :=
          ⟨⟨a, by simp, hs⟩, hr⟩
        rw [if_pos hout, hs]
        by_cases ht : (∃ i ∈ t, rows.getD i 0 = r) ∧ r < d.length
        · rw [if_pos ht]
          rw [Finset.union_assoc, Finset.union_self]
        · rw [if_neg ht, Finset.union_empty]
      · rw [if_neg (by omega), if_neg (by omega), if_neg (by omega),
          Finset.union_empty]
    · rw [if_neg (by rintro ⟨h1, h2⟩; exact hs (h1 ▸ rfl))]
      by_cases ht : (∃ i ∈ t, rows.getD i 0 = r) ∧ r < d.length
      · rw [if_pos ht, if_pos ⟨⟨ht.1.choose, by
          rcases ht.1.choose_spec with ⟨hm, he⟩
          exact List.mem_cons_of_mem a hm, ht.1.choose_spec.2⟩, ht.2⟩]
      · rw [if_neg ht, if_neg (by
          rintro ⟨⟨i, hmem, he⟩, hlt⟩
          rcases List.mem_cons.mp hmem with rfl | hm2
          · exact hs he
          · exact ht ⟨⟨i, hm2, he⟩, hlt⟩)]

lemma seqDiagFold_getD (d : List (Finset Nat)) (rows cols : List Nat) (r : Nat) :
    (seqDiagFold d rows cols).getD r ∅
      = d.getD r ∅ ∪ (if r ∈ rows ∧ r < d.length then cols.toFinset else ∅) := by
  unfold seqDiagFold
  rw [setUnionFold_getD]
  congr 1
  by_cases hmem : r ∈ rows
  · rcases (mem_list_iff_getD rows r).mp hmem with ⟨i, hi, he⟩
    by_cases hr : r < d.length
    · rw [if_pos ⟨⟨i, List.mem_range.mpr hi, he⟩, hr⟩, if_pos ⟨hmem, hr⟩]
    · rw [if_neg (by omega), if_neg (by omega)]
  · rw [if_neg (by
      rintro ⟨⟨i, hmem2, he⟩, hlt⟩
      exact hmem ((mem_list_iff_getD rows r).mpr
        ⟨i, List.mem_range.mp hmem2, he⟩)), if_neg (by tauto)]


lemma map_getD_lt {α β : Type} (f : α → β) (l : List α) (r : Nat) (d : β)
    (d2 : α) (h : r < l.length) : (l.map f).getD r d = f (l.getD r d2) := by
  rw [getD_eq_get (l.map f) r d (by simpa using h), getD_eq_get l r d2 h]
  simp [List.getElem_map]

lemma colsFor_cons (c : List Nat × List Nat) (rest : List (List Nat × List Nat))
    (r : Nat) :
    colsFor (c :: rest) r
      = (if r ∈ c.1 then c.2.toFinset else ∅) ∪ colsFor rest r := rfl

lemma pairsOf_cons (c : List Nat × List Nat) (rest : List (List Nat × List Nat)) :
    pairsOf (c :: rest) = c.1.toFinset ×ˢ c.2.toFinset ∪ pairsOf rest := rfl

lemma pairsOf_mem (calls : List (List Nat × List Nat)) (x : Nat × Nat) :
    x ∈ pairsOf calls ↔ x.2 ∈ colsFor calls x.1 := by
  induction calls with
  | nil => simp [pairsOf, colsFor]
  | cons c rest ih =>
    rw [pairsOf_cons, colsFor_cons]
    simp only [Finset.mem_union, Finset.mem_product, ih]
    by_cases hr : x.1 ∈ c.1
    · simp [hr, List.mem_toFinset]
    · simp [hr, List.mem_toFinset]

lemma colsFor_row_bound (calls : List (List Nat × List Nat)) (r J : Nat)
    (h : J ∈ colsFor calls r) : ∃ c ∈ calls, r ∈ c.1 ∧ J ∈ c.2 := by
  induction calls with
  | nil => simp [colsFor] at h
  | cons c rest ih =>
    rw [colsFor_cons] at h
    rcases Finset.mem_union.mp h with h1 | h2
    · by_cases hr : r ∈ c.1
      · rw [if_pos hr] at h1
        exact ⟨c, by simp, hr, List.mem_toFinset.mp h1⟩
      · rw [if_neg hr] at h1
        exact absurd h1 (Finset.not_mem_empty J)
    · rcases ih h2 with ⟨c2, hc2, hr2, hJ2⟩
      exact ⟨c2, List.mem_cons_of_mem c hc2, hr2, hJ2⟩

lemma pairsOf_eq_biUnion (calls : List (List Nat × List Nat)) (L : Nat)
    (hrows : ∀ c ∈ calls, ∀ i ∈ c.1, i < L) :
    pairsOf calls
      = (Finset.range L).biUnion
          (fun r => (colsFor calls r).image (fun J => (r, J))) := by
  apply Finset.ext
  intro x
  rw [pairsOf_mem]
  constructor
  · intro h
    rcases colsFor_row_bound calls x.1 x.2 h with ⟨c, hc, hr, _⟩
    refine Finset.mem_biUnion.mpr ⟨x.1, Finset.mem_range.mpr (hrows c hc x.1 hr), ?_⟩
    exact Finset.mem_image.mpr ⟨x.2, h, rfl⟩
  · intro h
    rcases Finset.mem_biUnion.mp h with ⟨r, _, hx⟩
    rcases Finset.mem_image.mp hx with ⟨J, hJ, he⟩
    rcases he with rfl
    exact hJ

lemma pairsOf_card (calls : List (List Nat × List Nat)) (L : Nat)
    (hrows : ∀ c ∈ calls, ∀ i ∈ c.1, i < L) :
    (pairsOf calls).card
      = (Finset.range L).sum (fun r => (colsFor calls r).card) := by
  rw [pairsOf_eq_biUnion calls L hrows]
  rw [Finset.card_biUnion (by
    intro r1 _ r2 _ hne
    rw [Finset.disjoint_left]
    intro x h1 h2
    rcases Finset.mem_image.mp h1 with ⟨J1, _, he1⟩
    rcases Finset.mem_image.mp h2 with ⟨J2, _, he2⟩
    exact hne (by rw [← he1] at he2; exact (Prod.mk.injEq _ _ _ _).mp he2 |>.1.symm))]
  apply Finset.sum_congr rfl
  intro r _
  exact Finset.card_image_of_injective _ (fun a b hab =>
    (Prod.mk.injEq _ _ _ _).mp hab |>.2)

/-- insert_global in sequential mode only rewrites the diagonal sets. -/
lemma insert_global_seq (sp : SparsityPattern) (rows cols : List Nat)
    (h1 : sp.mpi_size = 1) (hf : sp.full_rows = ∅) :
    sp.insert_global rows cols
      = { sp with diagonal := seqDiagFold sp.diagonal rows cols } :=
  insert_entries_seq sp rows cols _ _ h1 hf

/-- Sequential runs only modify the diagonal sets. -/
lemma run_insert_global_seq_eq (calls : List (List Nat × List Nat)) :
    ∀ (sp : SparsityPattern), sp.mpi_size = 1 → sp.full_rows = ∅ →
      run_insert_global sp calls
        = { sp with diagonal := (run_insert_global sp calls).diagonal } := by
  induction calls with
  | nil => intro sp _ _; rfl
  | cons c rest ih =>
    intro sp h1 hf
    have hstep : run_insert_global sp (c :: rest)
        = run_insert_global (sp.insert_global c.1 c.2) rest := rfl
    rw [hstep, insert_global_seq sp c.1 c.2 h1 hf]
    exact ih _ h1 hf

lemma run_insert_global_seq_len (calls : List (List Nat × List Nat)) :
    ∀ (sp : SparsityPattern), sp.mpi_size = 1 → sp.full_rows = ∅ →
      (run_insert_global sp calls).diagonal.length = sp.diagonal.length := by
  induction calls with
  | nil => intro sp _ _; rfl
  | cons c rest ih =>
    intro sp h1 hf
    have hstep : run_insert_global sp (c :: rest)
        = run_insert_global (sp.insert_global c.1 c.2) rest := rfl
    rw [hstep, insert_global_seq sp c.1 c.2 h1 hf,
      ih { sp with diagonal := seqDiagFold sp.diagonal c.1 c.2 } h1 hf]
    exact seqDiagFold_length sp.diagonal c.1 c.2

lemma run_insert_global_seq_getD (calls : List (List Nat × List Nat)) :
    ∀ (sp : SparsityPattern), sp.mpi_size = 1 → sp.full_rows = ∅ → ∀ r : Nat,
      (run_insert_global sp calls).diagonal.getD r ∅
        = sp.diagonal.getD r ∅
          ∪ (if r < sp.diagonal.length then colsFor calls r else ∅) := by
  induction calls with
  | nil =>
    intro sp _ _ r
    show sp.diagonal.getD r ∅ = _
    by_cases hr : r < sp.diagonal.length
    · simp [colsFor, hr]
    · simp [colsFor, hr]
  | cons c rest ih =>
    intro sp h1 hf r
    have hstep : run_insert_global sp (c :: rest)
        = run_insert_global (sp.insert_global c.1 c.2) rest := rfl
    rw [hstep, insert_global_seq sp c.1 c.2 h1 hf,
      ih { sp with diagonal := seqDiagFold sp.diagonal c.1 c.2 } h1 hf r]
    have hproj : ({ sp with diagonal := seqDiagFold sp.diagonal c.1 c.2 } :
        SparsityPattern).diagonal = seqDiagFold sp.diagonal c.1 c.2 := rfl
    simp only [hproj]
    rw [seqDiagFold_getD, seqDiagFold_length, colsFor_cons]
    by_cases hr : r < sp.diagonal.length
    · rw [Finset.union_assoc]
      congr 1
      by_cases hm : r ∈ c.1
      · rw [if_pos ⟨hm, hr⟩, if_pos hr, if_pos hr, if_pos hm]
      · rw [if_neg (by tauto), if_pos hr, if_pos hr, if_neg hm,
          Finset.empty_union]
    · rw [if_neg (by tauto), if_neg hr, if_neg hr]
      simp


lemma sort_eq_of_sorted_nodup (s : Finset Nat) (l : List Nat)
    (hnd : l.Nodup) (hsorted : l.Sorted (fun a b => a ≤ b))
    (hmem : l.toFinset = s) : s.sort (· ≤ ·) = l := by
  apply List.eq_of_perm_of_sorted _ (Finset.sort_sorted _ s) hsorted
  rw [← Multiset.coe_eq_coe, Finset.sort_eq, ← hmem]
  show (l.toFinset).val = _
  have : l.toFinset.val = (l.dedup : Multiset Nat) := rfl
  rw [this, List.dedup_eq_self.mpr hnd]

/-! ### Claim C2 -/

/-- C2: on a single process with no full rows marked, for every sequence
of insert_global calls whose row indices are in the owned range,
num_nonzeros() equals the number of distinct (row, col) pairs inserted,
and diagonal_pattern(sorted) for each row equals the sorted set of
distinct columns inserted for that row (the 3x3 scenario is the witness
below). -/
theorem c2_sequential_counts (im0 im1 : IndexMap)
    (calls : List (List Nat × List Nat))
    (hrows : ∀ c ∈ calls, ∀ i ∈ c.1, i < im0.block_size * im0.size_owned) :
    (run_insert_global (SparsityPattern.create 1 0 im0 im1) calls).num_nonzeros
        = (pairsOf calls).card
    ∧ ∀ r, r < im0.block_size * im0.size_owned →
      ((run_insert_global (SparsityPattern.create 1 0 im0 im1)
          calls).diagonal_pattern_sorted).getD r []
        = (colsFor calls r).sort (· ≤ ·) := by
  have h1 : (SparsityPattern.create 1 0 im0 im1).mpi_size = 1 := rfl
  have hfr : (SparsityPattern.create 1 0 im0 im1).full_rows = ∅ := rfl
  have heq := run_insert_global_seq_eq calls (SparsityPattern.create 1 0 im0 im1) h1 hfr
  have hlen := run_insert_global_seq_len calls (SparsityPattern.create 1 0 im0 im1) h1 hfr
  have hget := run_insert_global_seq_getD calls (SparsityPattern.create 1 0 im0 im1) h1 hfr
  have hlen2 : (run_insert_global (SparsityPattern.create 1 0 im0 im1)
      calls).diagonal.length = im0.block_size * im0.size_owned := by
    rw [hlen]
    exact List.length_replicate _ _
  have hoff : (run_insert_global (SparsityPattern.create 1 0 im0 im1)
      calls).off_diagonal = List.replicate (im0.block_size * im0.size_owned) ∅ := by
    rw [heq]
    rfl
  have hfull : (run_insert_global (SparsityPattern.create 1 0 im0 im1)
      calls).full_rows = ∅ := by
    rw [heq]
    rfl
  have hgetr : ∀ r, r < im0.block_size * im0.size_owned →
      (run_insert_global (SparsityPattern.create 1 0 im0 im1)
        calls).diagonal.getD r ∅ = colsFor calls r := by
    intro r hr
    rw [hget r]
    have hc : (SparsityPattern.create 1 0 im0 im1).diagonal.getD r ∅ = ∅ := by
      show (List.replicate (im0.block_size * im0.size_owned) (∅ : Finset Nat)).getD r ∅ = ∅
      rw [getD_replicate]
      simp
    have hcl : (SparsityPattern.create 1 0 im0 im1).diagonal.length
        = im0.block_size * im0.size_owned := List.length_replicate _ _
    rw [hc, hcl, if_pos hr, Finset.empty_union]
  constructor
  · unfold SparsityPattern.num_nonzeros
    rw [hfull, Finset.sort_empty, List.foldl_nil, foldl_add_card, hoff,
      foldl_add_card]
    simp only [List.map_replicate, List.sum_replicate, smul_zero, add_zero,
      Finset.card_empty, zero_add]
    rw [map_sum_eq_range_sum (run_insert_global (SparsityPattern.create 1 0 im0 im1)
      calls).diagonal Finset.card ∅, hlen2]
    rw [pairsOf_card calls (im0.block_size * im0.size_owned) hrows]
    apply Finset.sum_congr rfl
    intro r hr
    rw [hgetr r (Finset.mem_range.mp hr)]
  · intro r hr
    unfold SparsityPattern.diagonal_pattern_sorted
    rw [hfull]
    simp only [Finset.card_empty, lt_irrefl, if_false]
    rw [map_getD_lt (fun s : Finset Nat => s.sort (· ≤ ·)) _ r [] ∅
      (by rw [hlen2]; exact hr)]
    rw [hgetr r hr]

/-- Witness for C2: the 3x3 scenario; insert_global rows=[0,1],cols=[0,2]
then rows=[2],cols=[1] gives num_nonzeros()=5 and
diagonal_pattern(sorted)=[[0,2],[0,2],[1]]. -/
theorem c2_sequential_counts_witness :
    (run_insert_global
      (SparsityPattern.create 1 0 ⟨1, 0, 3, [], [], 3⟩ ⟨1, 0, 3, [], [], 3⟩)
      [([0, 1], [0, 2]), ([2], [1])]).num_nonzeros = 5
    ∧ ((run_insert_global
      (SparsityPattern.create 1 0 ⟨1, 0, 3, [], [], 3⟩ ⟨1, 0, 3, [], [], 3⟩)
      [([0, 1], [0, 2]), ([2], [1])]).diagonal_pattern_sorted).getD 0 [] = [0, 2]
    ∧ ((run_insert_global
      (SparsityPattern.create 1 0 ⟨1, 0, 3, [], [], 3⟩ ⟨1, 0, 3, [], [], 3⟩)
      [([0, 1], [0, 2]), ([2], [1])]).diagonal_pattern_sorted).getD 1 [] = [0, 2]
    ∧ ((run_insert_global
      (SparsityPattern.create 1 0 ⟨1, 0, 3, [], [], 3⟩ ⟨1, 0, 3, [], [], 3⟩)
      [([0, 1], [0, 2]), ([2], [1])]).diagonal_pattern_sorted).getD 2 [] = [1] := by
  have h := c2_sequential_counts ⟨1, 0, 3, [], [], 3⟩ ⟨1, 0, 3, [], [], 3⟩
    [([0, 1], [0, 2]), ([2], [1])] (by decide)
  refine ⟨?_, ?_, ?_, ?_⟩
  · rw [h.1]; decide
  · rw [h.2 0 (by decide)]
    exact sort_eq_of_sorted_nodup _ [0, 2] (by decide) (by decide) (by decide)
  · rw [h.2 1 (by decide)]
    exact sort_eq_of_sorted_nodup _ [0, 2] (by decide) (by decide) (by decide)
  · rw [h.2 2 (by decide)]
    exact sort_eq_of_sorted_nodup _ [1] (by decide) (by decide) (by decide)


/-! ### Claims C3 and C4 (code-bug demonstrations) -/

/-- C3: code-bug demonstration.  On one process, after marking local row
1 full, insert_global(rows=[1], cols=[0]) still inserts column 0 into
row 1's explicit diagonal set: the sequential path of insert_entries
tests the loop position (0) against the full-row set instead of the row
index (1), contradicting the code's own comment ("do simple insertion
if not full row"), the parallel path (which tests the mapped row I),
and the claim that insertions into a full row are skipped. -/
theorem c3_full_row_skip_bug :
    ((((SparsityPattern.create 1 0 ⟨1, 0, 3, [], [], 3⟩
        ⟨1, 0, 3, [], [], 3⟩).insert_full_rows_local [1]).insert_global
        [1] [0]).diagonal.getD 1 ∅ = ({0} : Finset Nat))
    ∧ ((((SparsityPattern.create 1 0 ⟨1, 0, 3, [], [], 3⟩
        ⟨1, 0, 3, [], [], 3⟩).insert_full_rows_local [1]).insert_global
        [1] [0]).full_rows = ({1} : Finset Nat)) := by decide

/-- C4: code-bug demonstration.  With block size 2 and owned node range
[2, 4) (owned row element range [4, 8)), apply()'s received-entry check
raises no error for global row element 3 even though 3 lies outside the
owned element range: the code's lower bound is compared in node units
(3 < 2 is false) while its upper bound uses element units, so the
mixed-unit guard lets the out-of-range row through instead of failing
loudly as the claim requires. -/
theorem c4_range_check_bug :
    (((SparsityPattern.create 2 0 ⟨2, 2, 4, [], [], 6⟩
        ⟨2, 2, 4, [], [], 6⟩).insert_received [(3, 0)]).isOk = true)
    ∧ ¬(2 * 2 ≤ 3 ∧ 3 < 2 * 4) := by decide


/-! ### Claim C7 -/

/-- C7: num_nonzeros() equals the sum of all diagonal-set sizes plus all
off-diagonal-set sizes plus, for each locally owned full row, the global
column element count; num_nonzeros_diagonal() / num_nonzeros_off_diagonal()
report, per row, the explicit set size except that locally owned full rows
contribute the owned (resp. global-minus-owned) column element count in
its place. -/
theorem c7_num_nonzeros_formulas (sp : SparsityPattern) :
    sp.num_nonzeros
        = (Finset.range sp.diagonal.length).sum
            (fun i => (sp.diagonal.getD i ∅).card)
          + (Finset.range sp.off_diagonal.length).sum
            (fun i => (sp.off_diagonal.getD i ∅).card)
          + (sp.full_rows.filter (fun r => r < sp.local_size0)).card
              * (sp.im1.block_size * sp.im1.global_size)
    ∧ (∀ r, r < sp.diagonal.length →
        (sp.num_nonzeros_diagonal).getD r 0
          = if r ∈ sp.full_rows ∧ r < sp.local_size0
            then sp.im1.block_size * sp.im1.size_owned
            else (sp.diagonal.getD r ∅).card)
    ∧ (∀ r, r < sp.off_diagonal.length →
        (sp.num_nonzeros_off_diagonal).getD r 0
          = if r ∈ sp.full_rows ∧ r < sp.local_size0
            then sp.im1.block_size * sp.im1.global_size
                 - sp.im1.block_size * sp.im1.size_owned
            else (sp.off_diagonal.getD r ∅).card) := by
  refine ⟨?_, ?_, ?_⟩
  · unfold SparsityPattern.num_nonzeros
    simp only [foldl_add_card]
    rw [foldl_count_add (fun r => r < sp.local_size0)
        (sp.im1.block_size * sp.im1.global_size) (sp.full_rows.sort (· ≤ ·)),
      countP_sort_eq_card_filter sp.full_rows (fun r => r < sp.local_size0),
      map_sum_eq_range_sum sp.diagonal Finset.card ∅,
      map_sum_eq_range_sum sp.off_diagonal Finset.card ∅]
    ring
  · intro r hr
    unfold SparsityPattern.num_nonzeros_diagonal
    by_cases hcard : 0 < sp.full_rows.card
    · rw [if_pos hcard,
        foldl_overwrite_getD (fun x => x < sp.local_size0)
          (sp.im1.block_size * sp.im1.size_owned) (sp.full_rows.sort (· ≤ ·))
          (sp.diagonal.map Finset.card) r 0]
      rw [List.length_map]
      by_cases hmem : r ∈ sp.full_rows ∧ r < sp.local_size0
      · rw [if_pos ⟨Finset.mem_sort (· ≤ ·) |>.mpr hmem.1, hmem.2, hr⟩,
          if_pos hmem]
      · rw [if_neg (by
          rintro ⟨hs, hlt, _⟩
          exact hmem ⟨Finset.mem_sort (· ≤ ·) |>.mp hs, hlt⟩), if_neg hmem,
          map_getD_lt Finset.card sp.diagonal r 0 ∅ hr]
    · rw [if_neg hcard]
      have hempty : sp.full_rows = ∅ := by
        rcases Nat.eq_zero_or_pos sp.full_rows.card with h0 | hpos
        · exact Finset.card_eq_zero.mp h0
        · exact absurd hpos hcard
      rw [map_getD_lt Finset.card sp.diagonal r 0 ∅ hr,
        if_neg (by rw [hempty]; rintro ⟨hs, _⟩; exact Finset.not_mem_empty r hs)]
  · intro r hr
    unfold SparsityPattern.num_nonzeros_off_diagonal
    have hne : ¬sp.off_diagonal.isEmpty = true := by
      intro he
      rw [List.isEmpty_iff.mp he] at hr
      exact Nat.not_lt_zero r hr
    rw [if_neg hne]
    by_cases hcard : 0 < sp.full_rows.card
    · rw [if_pos hcard,
        foldl_overwrite_getD (fun x => x < sp.local_size0)
          (sp.im1.block_size * sp.im1.global_size
            - sp.im1.block_size * sp.im1.size_owned) (sp.full_rows.sort (· ≤ ·))
          (sp.off_diagonal.map Finset.card) r 0]
      rw [List.length_map]
      by_cases hmem : r ∈ sp.full_rows ∧ r < sp.local_size0
      · rw [if_pos ⟨Finset.mem_sort (· ≤ ·) |>.mpr hmem.1, hmem.2, hr⟩,
          if_pos hmem]
      · rw [if_neg (by
          rintro ⟨hs, hlt, _⟩
          exact hmem ⟨Finset.mem_sort (· ≤ ·) |>.mp hs, hlt⟩), if_neg hmem,
          map_getD_lt Finset.card sp.off_diagonal r 0 ∅ hr]
    · rw [if_neg hcard]
      have hempty : sp.full_rows = ∅ := by
        rcases Nat.eq_zero_or_pos sp.full_rows.card with h0 | hpos
        · exact Finset.card_eq_zero.mp h0
        · exact absurd hpos hcard
      rw [map_getD_lt Finset.card sp.off_diagonal r 0 ∅ hr,
        if_neg (by rw [hempty]; rintro ⟨hs, _⟩; exact Finset.not_mem_empty r hs)]

/-- Witness for C7 at a concrete pattern with two owned rows, entries in
both blocks, an owned full row (1) and an unowned full row (3). -/
theorem c7_num_nonzeros_formulas_witness :
    (⟨2, 0, ⟨1, 0, 2, [], [], 4⟩, ⟨1, 1, 3, [], [], 6⟩, [{1, 2}, ∅],
      [{0}, {5}], {1, 3}, []⟩ : SparsityPattern).num_nonzeros = 10
    ∧ (⟨2, 0, ⟨1, 0, 2, [], [], 4⟩, ⟨1, 1, 3, [], [], 6⟩, [{1, 2}, ∅],
      [{0}, {5}], {1, 3}, []⟩ : SparsityPattern).num_nonzeros_diagonal.getD 0 0 = 2
    ∧ (⟨2, 0, ⟨1, 0, 2, [], [], 4⟩, ⟨1, 1, 3, [], [], 6⟩, [{1, 2}, ∅],
      [{0}, {5}], {1, 3}, []⟩ : SparsityPattern).num_nonzeros_diagonal.getD 1 0 = 2
    ∧ (⟨2, 0, ⟨1, 0, 2, [], [], 4⟩, ⟨1, 1, 3, [], [], 6⟩, [{1, 2}, ∅],
      [{0}, {5}], {1, 3}, []⟩ : SparsityPattern).num_nonzeros_off_diagonal.getD 1 0 = 4 := by
  have h := c7_num_nonzeros_formulas
    ⟨2, 0, ⟨1, 0, 2, [], [], 4⟩, ⟨1, 1, 3, [], [], 6⟩, [{1, 2}, ∅],
      [{0}, {5}], {1, 3}, []⟩
  refine ⟨?_, ?_, ?_, ?_⟩
  · rw [h.1]; decide
  · rw [h.2.1 0 (by decide)]; decide
  · rw [h.2.1 1 (by decide)]; decide
  · rw [h.2.2 1 (by decide)]; decide


/-! ### Parallel insertion characterization -/

/-- The fields of a pattern that insert_entries never modifies. -/
def SparsityPattern.frame (sp : SparsityPattern) :
    Nat × Nat × IndexMap × IndexMap × Finset Nat :=
  (sp.mpi_size, sp.rank, sp.im0, sp.im1, sp.full_rows)

/-- The mapped columns of one call that land in the owned column element
range (future diagonal entries). -/
def inColsF (index_map1 : IndexMap) (col_map : Nat → IndexMap → Nat)
    (cols : List Nat) : Finset Nat :=
  (cols.map (fun j => col_map j index_map1)).toFinset.filter
    (fun J => index_map1.block_size * index_map1.range_start ≤ J
      ∧ J < index_map1.block_size * index_map1.range_end)

/-- The mapped columns of one call that fall outside the owned column
element range (future off-diagonal entries). -/
def outColsF (index_map1 : IndexMap) (col_map : Nat → IndexMap → Nat)
    (cols : List Nat) : Finset Nat :=
  (cols.map (fun j => col_map j index_map1)).toFinset.filter
    (fun J => ¬(index_map1.block_size * index_map1.range_start ≤ J
      ∧ J < index_map1.block_size * index_map1.range_end))

lemma insertColLocal_frame (im1 : IndexMap) (cm : Nat → IndexMap → Nat)
    (I : Nat) :
    ∀ (cols : List Nat) (st : SparsityPattern),
      (cols.foldl (insertColLocal im1 cm I) st).frame = st.frame := by
  intro cols
  induction cols with
  | nil => intro st; rfl
  | cons j t ih =>
    intro st
    rw [List.foldl_cons, ih]
    simp only [insertColLocal]
    by_cases h : im1.block_size * im1.range_start ≤ cm j im1
        ∧ cm j im1 < im1.block_size * im1.range_end
    · rw [if_pos h]
      rfl
    · rw [if_neg h]
      rfl

lemma insertColLocal_non_local (im1 : IndexMap) (cm : Nat → IndexMap → Nat)
    (I : Nat) :
    ∀ (cols : List Nat) (st : SparsityPattern),
      (cols.foldl (insertColLocal im1 cm I) st).non_local = st.non_local := by
  intro cols
  induction cols with
  | nil => intro st; rfl
  | cons j t ih =>
    intro st
    rw [List.foldl_cons, ih]
    simp only [insertColLocal]
    by_cases h : im1.block_size * im1.range_start ≤ cm j im1
        ∧ cm j im1 < im1.block_size * im1.range_end
    · rw [if_pos h]
    · rw [if_neg h]

lemma insertColLocal_lengths (im1 : IndexMap) (cm : Nat → IndexMap → Nat)
    (I : Nat) :
    ∀ (cols : List Nat) (st : SparsityPattern),
      (cols.foldl (insertColLocal im1 cm I) st).diagonal.length
          = st.diagonal.length
      ∧ (cols.foldl (insertColLocal im1 cm I) st).off_diagonal.length
          = st.off_diagonal.length := by
  intro cols
  induction cols with
  | nil => intro st; exact ⟨rfl, rfl⟩
  | cons j t ih =>
    intro st
    rw [List.foldl_cons]
    rcases ih (insertColLocal im1 cm I st j) with ⟨h1, h2⟩
    rw [h1, h2]
    simp only [insertColLocal]
    by_cases h : im1.block_size * im1.range_start ≤ cm j im1
        ∧ cm j im1 < im1.block_size * im1.range_end
    · rw [if_pos h]
      exact ⟨List.length_set _ _ _, rfl⟩
    · rw [if_neg h]
      exact ⟨rfl, List.length_set _ _ _⟩

lemma insertColLocal_diag_getD (im1 : IndexMap) (cm : Nat → IndexMap → Nat)
    (I : Nat) :
    ∀ (cols : List Nat) (st : SparsityPattern) (r : Nat),
      (cols.foldl (insertColLocal im1 cm I) st).diagonal.getD r ∅
        = st.diagonal.getD r ∅
          ∪ (if I = r ∧ r < st.diagonal.length then inColsF im1 cm cols else ∅) := by
  intro cols
  induction cols with
  | nil =>
    intro st r
    show st.diagonal.getD r ∅ = _
    by_cases h : I = r ∧ r < st.diagonal.length
    · rw [if_pos h]
      simp [inColsF]
    · rw [if_neg h, Finset.union_empty]
  | cons j t ih =>
    intro st r
    rw [List.foldl_cons, ih (insertColLocal im1 cm I st j) r]
    have hlen : (insertColLocal im1 cm I st j).diagonal.length
        = st.diagonal.length := by
      simp only [insertColLocal]
      by_cases h : im1.block_size * im1.range_start ≤ cm j im1
          ∧ cm j im1 < im1.block_size * im1.range_end
      · rw [if_pos h]
        exact List.length_set _ _ _
      · rw [if_neg h]
    rw [hlen]
    by_cases hJ : im1.block_size * im1.range_start ≤ cm j im1
        ∧ cm j im1 < im1.block_size * im1.range_end
    · have hstep : (insertColLocal im1 cm I st j).diagonal
          = st.diagonal.set I (insert (cm j im1) (st.diagonal.getD I ∅)) := by
        simp only [insertColLocal]
        rw [if_pos hJ]
      rw [hstep, getD_set_spec]
      have hcols : inColsF im1 cm (j :: t)
          = insert (cm j im1) (inColsF im1 cm t) := by
        unfold inColsF
        rw [List.map_cons, List.toFinset_cons, Finset.filter_insert, if_pos hJ]
      by_cases hir : I = r ∧ r < st.diagonal.length
      · rcases hir with ⟨rfl, hr⟩
        rw [if_pos ⟨rfl, hr⟩, if_pos ⟨rfl, hr⟩, if_pos ⟨rfl, hr⟩, hcols]
        rw [Finset.insert_union, Finset.union_insert]
      · have hir2 : ¬(I = r ∧ I < st.diagonal.length) := by
          rintro ⟨rfl, h2⟩
          exact hir ⟨rfl, h2⟩
        rw [if_neg hir2, if_neg hir, if_neg hir]
    · have hstep : (insertColLocal im1 cm I st j).diagonal = st.diagonal := by
        simp only [insertColLocal]
        rw [if_neg hJ]
      have hcols : inColsF im1 cm (j :: t) = inColsF im1 cm t := by
        unfold inColsF
        rw [List.map_cons, List.toFinset_cons, Finset.filter_insert, if_neg hJ]
      rw [hstep, hcols]

lemma insertColLocal_off_getD (im1 : IndexMap) (cm : Nat → IndexMap → Nat)
    (I : Nat) :
    ∀ (cols : List Nat) (st : SparsityPattern) (r : Nat),
      (cols.foldl (insertColLocal im1 cm I) st).off_diagonal.getD r ∅
        = st.off_diagonal.getD r ∅
          ∪ (if I = r ∧ r < st.off_diagonal.length
             then outColsF im1 cm cols else ∅) := by
  intro cols
  induction cols with
  | nil =>
    intro st r
    show st.off_diagonal.getD r ∅ = _
    by_cases h : I = r ∧ r < st.off_diagonal.length
    · rw [if_pos h]
      simp [outColsF]
    · rw [if_neg h, Finset.union_empty]
  | cons j t ih =>
    intro st r
    rw [List.foldl_cons, ih (insertColLocal im1 cm I st j) r]
    have hlen : (insertColLocal im1 cm I st j).off_diagonal.length
        = st.off_diagonal.length := by
      simp only [insertColLocal]
      by_cases h : im1.block_size * im1.range_start ≤ cm j im1
          ∧ cm j im1 < im1.block_size * im1.range_end
      · rw [if_pos h]
      · rw [if_neg h]
        exact List.length_set _ _ _
    rw [hlen]
    by_cases hJ : im1.block_size * im1.range_start ≤ cm j im1
        ∧ cm j im1 < im1.block_size * im1.range_end
    · have hstep : (insertColLocal im1 cm I st j).off_diagonal
          = st.off_diagonal := by
        simp only [insertColLocal]
        rw [if_pos hJ]
      have hcols : outColsF im1 cm (j :: t) = outColsF im1 cm t := by
        unfold outColsF
        rw [List.map_cons, List.toFinset_cons, Finset.filter_insert,
          if_neg (by tauto)]
      rw [hstep, hcols]
    · have hstep : (insertColLocal im1 cm I st j).off_diagonal
          = st.off_diagonal.set I (insert (cm j im1) (st.off_diagonal.getD I ∅)) := by
        simp only [insertColLocal]
        rw [if_neg hJ]
      rw [hstep, getD_set_spec]
      have hcols : outColsF im1 cm (j :: t)
          = insert (cm j im1) (outColsF im1 cm t) := by
        unfold outColsF
        rw [List.map_cons, List.toFinset_cons, Finset.filter_insert, if_pos hJ]
      by_cases hir : I = r ∧ r < st.off_diagonal.length
      · rcases hir with ⟨rfl, hr⟩
        rw [if_pos ⟨rfl, hr⟩, if_pos ⟨rfl, hr⟩, if_pos ⟨rfl, hr⟩, hcols]
        rw [Finset.insert_union, Finset.union_insert]
      · have hir2 : ¬(I = r ∧ I < st.off_diagonal.length) := by
          rintro ⟨rfl, h2⟩
          exact hir ⟨rfl, h2⟩
        rw [if_neg hir2, if_neg hir, if_neg hir]

lemma insertColNonLocal_frame (im1 : IndexMap) (cm : Nat → IndexMap → Nat)
    (I : Nat) :
    ∀ (cols : List Nat) (st : SparsityPattern),
      ((cols.foldl (insertColNonLocal im1 cm I) st).frame = st.frame)
      ∧ ((cols.foldl (insertColNonLocal im1 cm I) st).diagonal = st.diagonal)
      ∧ ((cols.foldl (insertColNonLocal im1 cm I) st).off_diagonal
          = st.off_diagonal) := by
  intro cols
  induction cols with
  | nil => intro st; exact ⟨rfl, rfl, rfl⟩
  | cons j t ih =>
    intro st
    rw [List.foldl_cons]
    rcases ih (insertColNonLocal im1 cm I st j) with ⟨h1, h2, h3⟩
    exact ⟨h1, h2, h3⟩

lemma insertColNonLocal_non_local (im1 : IndexMap) (cm : Nat → IndexMap → Nat)
    (I : Nat) :
    ∀ (cols : List Nat) (st : SparsityPattern),
      (cols.foldl (insertColNonLocal im1 cm I) st).non_local
        = st.non_local ++ cols.map (fun j => (I, cm j im1)) := by
  intro cols
  induction cols with
  | nil => intro st; exact (List.append_nil _).symm
  | cons j t ih =>
    intro st
    rw [List.foldl_cons, ih]
    show (st.non_local ++ [(I, cm j im1)]) ++ _ = _
    rw [List.append_assoc, List.map_cons]
    rfl


/-- The pairs one insert_entries call appends to the non-local buffer:
for each non-skipped row mapping outside the owned block, one
(mapped I, mapped J) pair per column, in order. -/
def nlAdds (index_map0 index_map1 : IndexMap) (full_rows : Finset Nat)
    (row_map col_map : Nat → IndexMap → Nat) (rows cols : List Nat) :
    List (Nat × Nat) :=
  rows.flatMap (fun i =>
    if (0 < full_rows.card ∧ row_map i index_map0 ∈ full_rows)
        ∨ row_map i index_map0 < index_map0.block_size * index_map0.size_owned
    then []
    else cols.map (fun j => (row_map i index_map0, col_map j index_map1)))

/-- Some row index of the call maps to local row r. -/
def rowHit (index_map0 : IndexMap) (row_map : Nat → IndexMap → Nat)
    (rows : List Nat) (r : Nat) : Prop :=
  ∃ i ∈ rows, row_map i index_map0 = r

instance (index_map0 : IndexMap) (row_map : Nat → IndexMap → Nat)
    (rows : List Nat) (r : Nat) :
    Decidable (rowHit index_map0 row_map rows r) :=
  List.decidableBEx _ rows

lemma rowHit_cons (index_map0 : IndexMap) (row_map : Nat → IndexMap → Nat)
    (i : Nat) (t : List Nat) (r : Nat) :
    rowHit index_map0 row_map (i :: t) r
      ↔ row_map i index_map0 = r ∨ rowHit index_map0 row_map t r := by
  simp [rowHit]

/-- The columns one insert_entries call adds to the diagonal set of
local row r. -/
def parDiagAdds (index_map0 index_map1 : IndexMap) (full_rows : Finset Nat)
    (row_map col_map : Nat → IndexMap → Nat) (rows cols : List Nat)
    (r : Nat) : Finset Nat :=
  if ¬(0 < full_rows.card ∧ r ∈ full_rows)
      ∧ r < index_map0.block_size * index_map0.size_owned
      ∧ rowHit index_map0 row_map rows r
  then inColsF index_map1 col_map cols else ∅

/-- The columns one insert_entries call adds to the off-diagonal set of
local row r. -/
def parOffAdds (index_map0 index_map1 : IndexMap) (full_rows : Finset Nat)
    (row_map col_map : Nat → IndexMap → Nat) (rows cols : List Nat)
    (r : Nat) : Finset Nat :=
  if ¬(0 < full_rows.card ∧ r ∈ full_rows)
      ∧ r < index_map0.block_size * index_map0.size_owned
      ∧ rowHit index_map0 row_map rows r
  then outColsF index_map1 col_map cols else ∅

lemma insertRowPar_fold_spec (index_map0 index_map1 : IndexMap)
    (full_rows : Finset Nat) (row_map col_map : Nat → IndexMap → Nat)
    (cols : List Nat) :
    ∀ (rows : List Nat) (st : SparsityPattern),
      st.diagonal.length = index_map0.block_size * index_map0.size_owned →
      st.off_diagonal.length = index_map0.block_size * index_map0.size_owned →
      ((rows.foldl (insertRowPar index_map0 index_map1 full_rows row_map
          col_map cols) st).frame = st.frame)
      ∧ ((rows.foldl (insertRowPar index_map0 index_map1 full_rows row_map
          col_map cols) st).diagonal.length = st.diagonal.length)
      ∧ ((rows.foldl (insertRowPar index_map0 index_map1 full_rows row_map
          col_map cols) st).off_diagonal.length = st.off_diagonal.length)
      ∧ ((rows.foldl (insertRowPar index_map0 index_map1 full_rows row_map
          col_map cols) st).non_local
          = st.non_local ++ nlAdds index_map0 index_map1 full_rows row_map
              col_map rows cols)
      ∧ (∀ r, (rows.foldl (insertRowPar index_map0 index_map1 full_rows
          row_map col_map cols) st).diagonal.getD r ∅
          = st.diagonal.getD r ∅ ∪ parDiagAdds index_map0 index_map1
              full_rows row_map col_map rows cols r)
      ∧ (∀ r, (rows.foldl (insertRowPar index_map0 index_map1 full_rows
          row_map col_map cols) st).off_diagonal.getD r ∅
          = st.off_diagonal.getD r ∅ ∪ parOffAdds index_map0 index_map1
              full_rows row_map col_map rows cols r) := by
  intro rows
  induction rows with
  | nil =>
    intro st _ _
    refine ⟨rfl, rfl, rfl, by simp [nlAdds], ?_, ?_⟩
    · intro r
      show st.diagonal.getD r ∅ = _
      rw [parDiagAdds, if_neg (by
        rintro ⟨_, _, i2, hmem, _⟩
        exact List.not_mem_nil i2 hmem), Finset.union_empty]
    · intro r
      show st.off_diagonal.getD r ∅ = _
      rw [parOffAdds, if_neg (by
        rintro ⟨_, _, i2, hmem, _⟩
        exact List.not_mem_nil i2 hmem), Finset.union_empty]
  | cons i t ih =>
    intro st hd ho
    rw [List.foldl_cons]
    have hhit : rowHit index_map0 row_map (i :: t) (row_map i index_map0) :=
      ⟨i, List.mem_cons_self i t, rfl⟩
    by_cases hskip : 0 < full_rows.card ∧ row_map i index_map0 ∈ full_rows
    · have hstep : insertRowPar index_map0 index_map1 full_rows row_map
          col_map cols st i = st := by
        simp only [insertRowPar]
        rw [if_pos hskip]
      rw [hstep]
      rcases ih st hd ho with ⟨h1, h2, h3, h4, h5, h6⟩
      have hnl : nlAdds index_map0 index_map1 full_rows row_map col_map
          (i :: t) cols = nlAdds index_map0 index_map1 full_rows row_map
          col_map t cols := by
        unfold nlAdds
        rw [List.flatMap_cons, if_pos (Or.inl hskip), List.nil_append]
      have hcollapse : ∀ r,
          (¬(0 < full_rows.card ∧ r ∈ full_rows)
            ∧ r < index_map0.block_size * index_map0.size_owned
            ∧ rowHit index_map0 row_map (i :: t) r)
          ↔ (¬(0 < full_rows.card ∧ r ∈ full_rows)
            ∧ r < index_map0.block_size * index_map0.size_owned
            ∧ rowHit index_map0 row_map t r) := by
        intro r
        rw [rowHit_cons]
        constructor
        · rintro ⟨hns, hlt, hI | hh⟩
          · exact absurd (hI ▸ hskip) hns
          · exact ⟨hns, hlt, hh⟩
        · rintro ⟨hns, hlt, hh⟩
          exact ⟨hns, hlt, Or.inr hh⟩
      refine ⟨h1, h2, h3, by rw [h4, hnl], ?_, ?_⟩
      · intro r
        rw [h5 r]
        unfold parDiagAdds
        rw [if_congr (hcollapse r) rfl rfl]
      · intro r
        rw [h6 r]
        unfold parOffAdds
        rw [if_congr (hcollapse r) rfl rfl]
    · by_cases hloc : row_map i index_map0
          < index_map0.block_size * index_map0.size_owned
      · have hstep : insertRowPar index_map0 index_map1 full_rows row_map
            col_map cols st i
            = cols.foldl (insertColLocal index_map1 col_map
                (row_map i index_map0)) st := by
          simp only [insertRowPar]
          rw [if_neg hskip, if_pos hloc]
        rw [hstep]
        have hfr := insertColLocal_frame index_map1 col_map
          (row_map i index_map0) cols st
        have hlens := insertColLocal_lengths index_map1 col_map
          (row_map i index_map0) cols st
        have hnlp := insertColLocal_non_local index_map1 col_map
          (row_map i index_map0) cols st
        have hdg := insertColLocal_diag_getD index_map1 col_map
          (row_map i index_map0) cols st
        have hog := insertColLocal_off_getD index_map1 col_map
          (row_map i index_map0) cols st
        rcases ih (cols.foldl (insertColLocal index_map1 col_map
            (row_map i index_map0)) st)
          (by rw [hlens.1, hd]) (by rw [hlens.2, ho]) with
          ⟨h1, h2, h3, h4, h5, h6⟩
        have hnl : nlAdds index_map0 index_map1 full_rows row_map col_map
            (i :: t) cols = nlAdds index_map0 index_map1 full_rows row_map
            col_map t cols := by
          unfold nlAdds
          rw [List.flatMap_cons, if_pos (Or.inr hloc), List.nil_append]
        refine ⟨h1.trans hfr, by rw [h2, hlens.1], by rw [h3, hlens.2],
          by rw [h4, hnlp, hnl], ?_, ?_⟩
        · intro r
          rw [h5 r, hdg r, Finset.union_assoc]
          congr 1
          by_cases hir : row_map i index_map0 = r
          · rcases hir with rfl
            have hcons : parDiagAdds index_map0 index_map1 full_rows row_map
                col_map (i :: t) cols (row_map i index_map0)
                = inColsF index_map1 col_map cols := by
              unfold parDiagAdds
              rw [if_pos ⟨hskip, hloc, hhit⟩]
            rw [hcons, if_pos ⟨rfl, by rw [hd]; exact hloc⟩]
            by_cases ht : ¬(0 < full_rows.card
                  ∧ row_map i index_map0 ∈ full_rows)
                ∧ row_map i index_map0
                  < index_map0.block_size * index_map0.size_owned
                ∧ rowHit index_map0 row_map t (row_map i index_map0)
            · have hv : parDiagAdds index_map0 index_map1 full_rows row_map
                  col_map t cols (row_map i index_map0)
                  = inColsF index_map1 col_map cols := by
                unfold parDiagAdds
                rw [if_pos ht]
              rw [hv, Finset.union_self]
            · have hv : parDiagAdds index_map0 index_map1 full_rows row_map
                  col_map t cols (row_map i index_map0) = ∅ := by
                unfold parDiagAdds
                rw [if_neg ht]
              rw [hv, Finset.union_empty]
          · rw [if_neg (by rintro ⟨he, _⟩; exact hir he), Finset.empty_union]
            unfold parDiagAdds
            refine (if_congr ?_ rfl rfl).symm
            rw [rowHit_cons]
            constructor
            · rintro ⟨hns, hlt, hI | hh⟩
              · exact absurd hI hir
              · exact ⟨hns, hlt, hh⟩
            · rintro ⟨hns, hlt, hh⟩
              exact ⟨hns, hlt, Or.inr hh⟩
        · intro r
          rw [h6 r, hog r, Finset.union_assoc]
          congr 1
          by_cases hir : row_map i index_map0 = r
          · rcases hir with rfl
            have hcons : parOffAdds index_map0 index_map1 full_rows row_map
                col_map (i :: t) cols (row_map i index_map0)
                = outColsF index_map1 col_map cols := by
              unfold parOffAdds
              rw [if_pos ⟨hskip, hloc, hhit⟩]
            rw [hcons, if_pos ⟨rfl, by rw [ho]; exact hloc⟩]
            by_cases ht : ¬(0 < full_rows.card
                  ∧ row_map i index_map0 ∈ full_rows)
                ∧ row_map i index_map0
                  < index_map0.block_size * index_map0.size_owned
                ∧ rowHit index_map0 row_map t (row_map i index_map0)
            · have hv : parOffAdds index_map0 index_map1 full_rows row_map
                  col_map t cols (row_map i index_map0)
                  = outColsF index_map1 col_map cols := by
                unfold parOffAdds
                rw [if_pos ht]
              rw [hv, Finset.union_self]
            · have hv : parOffAdds index_map0 index_map1 full_rows row_map
                  col_map t cols (row_map i index_map0) = ∅ := by
                unfold parOffAdds
                rw [if_neg ht]
              rw [hv, Finset.union_empty]
          · rw [if_neg (by rintro ⟨he, _⟩; exact hir he), Finset.empty_union]
            unfold parOffAdds
            refine (if_congr ?_ rfl rfl).symm
            rw [rowHit_cons]
            constructor
            · rintro ⟨hns, hlt, hI | hh⟩
              · exact absurd hI hir
              · exact ⟨hns, hlt, hh⟩
            · rintro ⟨hns, hlt, hh⟩
              exact ⟨hns, hlt, Or.inr hh⟩
      · have hstep : insertRowPar index_map0 index_map1 full_rows row_map
            col_map cols st i
            = cols.foldl (insertColNonLocal index_map1 col_map
                (row_map i index_map0)) st := by
          simp only [insertRowPar]
          rw [if_neg hskip, if_neg hloc]
        rw [hstep]
        rcases insertColNonLocal_frame index_map1 col_map
          (row_map i index_map0) cols st with ⟨hfr, hdgp, hogp⟩
        have hnlp := insertColNonLocal_non_local index_map1 col_map
          (row_map i index_map0) cols st
        rcases ih (cols.foldl (insertColNonLocal index_map1 col_map
            (row_map i index_map0)) st)
          (by rw [hdgp, hd]) (by rw [hogp, ho]) with ⟨h1, h2, h3, h4, h5, h6⟩
        have hcollapse : ∀ r,
            (¬(0 < full_rows.card ∧ r ∈ full_rows)
              ∧ r < index_map0.block_size * index_map0.size_owned
              ∧ rowHit index_map0 row_map (i :: t) r)
            ↔ (¬(0 < full_rows.card ∧ r ∈ full_rows)
              ∧ r < index_map0.block_size * index_map0.size_owned
              ∧ rowHit index_map0 row_map t r) := by
          intro r
          rw [rowHit_cons]
          constructor
          · rintro ⟨hns, hlt, hI | hh⟩
            · exact absurd (by rw [hI]; exact hlt) hloc
            · exact ⟨hns, hlt, hh⟩
          · rintro ⟨hns, hlt, hh⟩
            exact ⟨hns, hlt, Or.inr hh⟩
        have hcnd : ¬((0 < full_rows.card
              ∧ row_map i index_map0 ∈ full_rows)
            ∨ row_map i index_map0
              < index_map0.block_size * index_map0.size_owned) := by
          rintro (h | h)
          · exact hskip h
          · exact hloc h
        refine ⟨h1.trans hfr, by rw [h2, hdgp], by rw [h3, hogp], ?_, ?_, ?_⟩
        · rw [h4, hnlp, List.append_assoc]
          have hnl : nlAdds index_map0 index_map1 full_rows row_map col_map
              (i :: t) cols
              = cols.map (fun j => (row_map i index_map0, col_map j index_map1))
                ++ nlAdds index_map0 index_map1 full_rows row_map col_map
                  t cols := by
            unfold nlAdds
            rw [List.flatMap_cons, if_neg hcnd]
          rw [hnl]
        · intro r
          rw [h5 r, hdgp]
          unfold parDiagAdds
          rw [if_congr (hcollapse r) rfl rfl]
        · intro r
          rw [h6 r, hogp]
          unfold parOffAdds
          rw [if_congr (hcollapse r) rfl rfl]


lemma insert_entries_par (sp : SparsityPattern) (rows cols : List Nat)
    (rm cm : Nat → IndexMap → Nat) (hm : ¬sp.mpi_size = 1) :
    sp.insert_entries rows cols rm cm
      = rows.foldl (insertRowPar sp.im0 sp.im1 sp.full_rows rm cm cols) sp := by
  unfold SparsityPattern.insert_entries
  rw [if_neg hm]

lemma insert_entries_par_spec (sp : SparsityPattern) (rows cols : List Nat)
    (rm cm : Nat → IndexMap → Nat) (hm : ¬sp.mpi_size = 1)
    (hd : sp.diagonal.length = sp.im0.block_size * sp.im0.size_owned)
    (ho : sp.off_diagonal.length = sp.im0.block_size * sp.im0.size_owned) :
    ((sp.insert_entries rows cols rm cm).frame = sp.frame)
    ∧ ((sp.insert_entries rows cols rm cm).diagonal.length
        = sp.diagonal.length)
    ∧ ((sp.insert_entries rows cols rm cm).off_diagonal.length
        = sp.off_diagonal.length)
    ∧ ((sp.insert_entries rows cols rm cm).non_local
        = sp.non_local ++ nlAdds sp.im0 sp.im1 sp.full_rows rm cm rows cols)
    ∧ (∀ r, (sp.insert_entries rows cols rm cm).diagonal.getD r ∅
        = sp.diagonal.getD r ∅
          ∪ parDiagAdds sp.im0 sp.im1 sp.full_rows rm cm rows cols r)
    ∧ (∀ r, (sp.insert_entries rows cols rm cm).off_diagonal.getD r ∅
        = sp.off_diagonal.getD r ∅
          ∪ parOffAdds sp.im0 sp.im1 sp.full_rows rm cm rows cols r) := by
  rw [insert_entries_par sp rows cols rm cm hm]
  exact insertRowPar_fold_spec sp.im0 sp.im1 sp.full_rows rm cm cols rows sp hd ho

lemma nlAdds_mem (index_map0 index_map1 : IndexMap) (full_rows : Finset Nat)
    (rm cm : Nat → IndexMap → Nat) (rows cols : List Nat) (e : Nat × Nat)
    (he : e ∈ nlAdds index_map0 index_map1 full_rows rm cm rows cols) :
    index_map0.block_size * index_map0.size_owned ≤ e.1
    ∧ ∃ i ∈ rows, ∃ j ∈ cols, e = (rm i index_map0, cm j index_map1) := by
  unfold nlAdds at he
  rcases List.mem_flatMap.mp he with ⟨i, hi, hmem⟩
  by_cases hc : (0 < full_rows.card ∧ rm i index_map0 ∈ full_rows)
      ∨ rm i index_map0 < index_map0.block_size * index_map0.size_owned
  · rw [if_pos hc] at hmem
    exact absurd hmem (List.not_mem_nil e)
  · rw [if_neg hc] at hmem
    rcases List.mem_map.mp hmem with ⟨j, hj, hej⟩
    constructor
    · rcases hej with rfl
      have : ¬rm i index_map0 < index_map0.block_size * index_map0.size_owned :=
        fun h => hc (Or.inr h)
      omega
    · exact ⟨i, hi, j, hj, hej.symm⟩

/-! ### apply() characterization -/

lemma set_non_local_nil_eq (sp : SparsityPattern) (h : sp.non_local = []) :
    ({ sp with non_local := [] } : SparsityPattern) = sp := by
  cases sp
  simp only at h
  rw [h]

lemma apply_with_non_local_nil (sp : SparsityPattern)
    (received : List (Nat × Nat)) (sp2 : SparsityPattern)
    (h : sp.apply_with received = Except.ok sp2) : sp2.non_local = [] := by
  unfold SparsityPattern.apply_with at h
  by_cases hm : 1 < sp.mpi_size
  · rw [if_pos hm] at h
    cases h2 : sp.insert_received received with
    | error e => rw [h2] at h; exact absurd h (by simp)
    | ok st =>
      rw [h2] at h
      have : ({ st with non_local := [] } : SparsityPattern) = sp2 := by
        exact Except.ok.inj h
      rw [← this]
  · rw [if_neg hm] at h
    have : ({ sp with non_local := [] } : SparsityPattern) = sp2 :=
      Except.ok.inj h
    rw [← this]

lemma system_received_nil (sys : List SparsityPattern) (p : Nat)
    (h : ∀ sp ∈ sys, sp.non_local = []) : system_received sys p = [] := by
  unfold system_received
  induction sys with
  | nil => rfl
  | cons a t ih =>
    rw [List.map_cons, List.flatten_cons]
    have ha : a.non_local_send_pairs = [] := by
      unfold SparsityPattern.non_local_send_pairs
      rw [h a (List.mem_cons_self a t)]
      rfl
    rw [ha]
    show List.flatten _ = []
    exact ih (fun sp hsp => h sp (List.mem_cons_of_mem a hsp))

lemma apply_with_empty (sp : SparsityPattern) (h : sp.non_local = []) :
    sp.apply_with [] = Except.ok sp := by
  unfold SparsityPattern.apply_with
  by_cases hm : 1 < sp.mpi_size
  · rw [if_pos hm]
    show (match sp.insert_received [] with
      | Except.error e => Except.error e
      | Except.ok st => Except.ok { st with non_local := [] }) = _
    have : sp.insert_received [] = Except.ok sp := rfl
    rw [this]
    show Except.ok ({ sp with non_local := [] } : SparsityPattern) = Except.ok sp
    rw [set_non_local_nil_eq sp h]
  · rw [if_neg hm, set_non_local_nil_eq sp h]

/-! ### Claims C8, C9, C10 -/

/-- C8 (amended): in multi-process mode, each insertion appends to the
non-local buffer exactly the pairs (I, J) of its non-skipped rows whose
mapped index I lies outside the owned-row block, where I is the mapped
local row index -- not the global row -- and J the mapped column; every
appended pair satisfies I >= local_size0 and comes from one row and one
column of the call. -/
theorem c8_non_local_buffer_contents (sp : SparsityPattern)
    (rows cols : List Nat) (rm cm : Nat → IndexMap → Nat)
    (hm : ¬sp.mpi_size = 1)
    (hd : sp.diagonal.length = sp.im0.block_size * sp.im0.size_owned)
    (ho : sp.off_diagonal.length = sp.im0.block_size * sp.im0.size_owned) :
    ((sp.insert_entries rows cols rm cm).non_local
      = sp.non_local ++ nlAdds sp.im0 sp.im1 sp.full_rows rm cm rows cols)
    ∧ ∀ e ∈ nlAdds sp.im0 sp.im1 sp.full_rows rm cm rows cols,
        sp.im0.block_size * sp.im0.size_owned ≤ e.1
        ∧ ∃ i ∈ rows, ∃ j ∈ cols, e = (rm i sp.im0, cm j sp.im1) :=
  ⟨(insert_entries_par_spec sp rows cols rm cm hm hd ho).2.2.2.1,
   fun e he => nlAdds_mem sp.im0 sp.im1 sp.full_rows rm cm rows cols e he⟩

/-- Witness for C8: a two-process pattern with one owned row pair and a
ghost row; inserting into ghost row 2 buffers the pair (2, 0). -/
theorem c8_non_local_buffer_contents_witness :
    ((SparsityPattern.create 2 0 ⟨1, 0, 2, [5], [1], 6⟩
        ⟨1, 0, 2, [], [], 6⟩).insert_entries [2] [0]
        (fun i _ => i) (fun j _ => j)).non_local
      = [] ++ nlAdds ⟨1, 0, 2, [5], [1], 6⟩ ⟨1, 0, 2, [], [], 6⟩ ∅
          (fun i _ => i) (fun j _ => j) [2] [0] := by
  have h := c8_non_local_buffer_contents
    (SparsityPattern.create 2 0 ⟨1, 0, 2, [5], [1], 6⟩ ⟨1, 0, 2, [], [], 6⟩)
    [2] [0] (fun i _ => i) (fun j _ => j) (by decide) (by decide) (by decide)
  exact h.1

/-- C8 counterexample: the claim as stated says the buffered pair holds
the global row index; here the ghost row with local element index 2
refers to global row 5 (ghost node 5), yet the buffer holds (2, 0). -/
theorem c8_counterexample :
    ((SparsityPattern.create 2 0 ⟨1, 0, 2, [5], [1], 6⟩
        ⟨1, 0, 2, [], [], 6⟩).insert_local_global [2] [0]).non_local = [(2, 0)]
    ∧ IndexMap.global_row ⟨1, 0, 2, [5], [1], 6⟩ 2 = 5
    ∧ (2 : Nat) ≠ 5 := by decide

/-- C9: a successful apply() leaves the non-local buffer empty, and a
collective apply() in which every process has an already-empty buffer
returns every pattern unchanged (diagonal, off-diagonal, full rows and
buffer included). -/
theorem c9_apply_idempotent :
    (∀ (sp : SparsityPattern) (received : List (Nat × Nat))
        (sp2 : SparsityPattern),
      sp.apply_with received = Except.ok sp2 → sp2.non_local = [])
    ∧ ∀ (sys : List SparsityPattern), (∀ sp ∈ sys, sp.non_local = []) →
        system_apply sys = Except.ok sys := by
  constructor
  · exact apply_with_non_local_nil
  · intro sys h
    unfold system_apply
    have hmap : ∀ p ∈ List.range sys.length,
        (sys.getD p default).apply_with (system_received sys p)
          = Except.ok (sys.getD p default) := by
      intro p hp
      rw [system_received_nil sys p h]
      apply apply_with_empty
      have hlt : p < sys.length := List.mem_range.mp hp
      rw [getD_eq_get sys p default hlt]
      exact h _ (List.get_mem sys p hlt)
    rw [mapM_except_ok (fun p => (sys.getD p default).apply_with
        (system_received sys p)) (fun p => sys.getD p default)
        (List.range sys.length) hmap]
    rw [range_map_getD sys default]

/-- Witness for C9: a concrete two-process system with empty buffers is
returned unchanged by the collective apply. -/
theorem c9_apply_idempotent_witness :
    system_apply
      [SparsityPattern.create 2 0 ⟨1, 0, 1, [1], [1], 2⟩ ⟨1, 0, 1, [1], [1], 2⟩,
       SparsityPattern.create 2 1 ⟨1, 1, 2, [0], [0], 2⟩ ⟨1, 1, 2, [0], [0], 2⟩]
      = Except.ok
      [SparsityPattern.create 2 0 ⟨1, 0, 1, [1], [1], 2⟩ ⟨1, 0, 1, [1], [1], 2⟩,
       SparsityPattern.create 2 1 ⟨1, 1, 2, [0], [0], 2⟩ ⟨1, 1, 2, [0], [0], 2⟩] :=
  c9_apply_idempotent.2 _ (by decide)

/-- C10: apply() inserts received entries without consulting the
full-row set: process 0 inserts into ghost row 1 (owned by process 1,
which marked its local row 0 full); after the collective apply, process
1's explicit off-diagonal set for its full row 0 holds column 0 even
though row 0 is in its full-row set. -/
theorem c10_apply_ignores_full_rows :
    ((system_apply
      [(SparsityPattern.create 2 0 ⟨1, 0, 1, [1], [1], 2⟩
          ⟨1, 0, 1, [1], [1], 2⟩).insert_local_global [1] [0],
       (SparsityPattern.create 2 1 ⟨1, 1, 2, [0], [0], 2⟩
          ⟨1, 1, 2, [0], [0], 2⟩).insert_full_rows_local [0]]).toOption.map
      (fun sys => ((sys.getD 1 default).off_diagonal.getD 0 ∅,
                   (sys.getD 1 default).full_rows)))
      = some ({0}, {0}) := by decide


/-! ### Merge constructor lemmas (claims C5, C6) -/

lemma merge_block_bad (distributed : Bool) (cmaps : List IndexMap)
    (off : Nat) (st : MergeState) (col : Nat) (p : SparsityPattern)
    (h : p.non_local ≠ []) :
    merge_block distributed cmaps off st col p
      = Except.error
          ("Sub-sparsity pattern has not been finalised (apply needs to be called)",
           st) := by
  unfold merge_block
  rw [if_pos h]

lemma merge_block_ok (distributed : Bool) (cmaps : List IndexMap)
    (off : Nat) (st : MergeState) (col : Nat) (p : SparsityPattern)
    (h : p.non_local = []) :
    merge_block distributed cmaps off st col p
      = Except.ok
          ⟨merge_block_insert st.diagonal off p.diagonal
             (get_global_index cmaps col),
           if distributed then
             merge_block_insert st.off_diagonal off p.off_diagonal
               (get_global_index cmaps col)
           else st.off_diagonal⟩ := by
  unfold merge_block
  rw [if_neg (by simp [h])]

lemma mem_enumFrom_of_mem {α : Type} (a : α) :
    ∀ (l : List α) (j : Nat), a ∈ l → ∃ n, (n, a) ∈ List.enumFrom j l := by
  intro l
  induction l with
  | nil => intro j h; exact absurd h (List.not_mem_nil a)
  | cons b t ih =>
    intro j h
    rcases List.mem_cons.mp h with rfl | hm
    · exact ⟨j, by rw [List.enumFrom_cons]; exact List.mem_cons_self _ _⟩
    · rcases ih (j + 1) hm with ⟨n, hn⟩
      exact ⟨n, by rw [List.enumFrom_cons]; exact List.mem_cons_of_mem _ hn⟩

lemma snd_mem_of_mem_enumFrom {α : Type} :
    ∀ (l : List α) (j : Nat) (cp : Nat × α), cp ∈ List.enumFrom j l → cp.2 ∈ l := by
  intro l
  induction l with
  | nil => intro j cp h; exact absurd h (List.not_mem_nil cp)
  | cons b t ih =>
    intro j cp h
    rw [List.enumFrom_cons] at h
    rcases List.mem_cons.mp h with rfl | hm
    · exact List.mem_cons_self b t
    · exact List.mem_cons_of_mem b (ih (j + 1) cp hm)

lemma merge_fold_error (distributed : Bool) (cmaps : List IndexMap)
    (off : Nat) :
    ∀ (l : List (Nat × SparsityPattern)) (st : MergeState),
      (∃ cp ∈ l, cp.2.non_local ≠ []) →
      ∃ st2, l.foldlM
          (fun s cp => merge_block distributed cmaps off s cp.1 cp.2) st
        = Except.error
          ("Sub-sparsity pattern has not been finalised (apply needs to be called)",
           st2) := by
  intro l
  induction l with
  | nil =>
    rintro st ⟨cp, hm, _⟩
    exact absurd hm (List.not_mem_nil cp)
  | cons cp t ih =>
    rintro st hex
    rw [List.foldlM_cons]
    by_cases hbad : cp.2.non_local = []
    · rw [merge_block_ok distributed cmaps off st cp.1 cp.2 hbad]
      apply ih
      rcases hex with ⟨cq, hmemq, hq⟩
      rcases List.mem_cons.mp hmemq with rfl | hmt
      · exact absurd hbad hq
      · exact ⟨cq, hmt, hq⟩
    · rw [merge_block_bad distributed cmaps off st cp.1 cp.2 hbad]
      exact ⟨st, rfl⟩

lemma merge_row_error (distributed : Bool) (cmaps : List IndexMap)
    (acc : MergeState × Nat) (rowPats : List SparsityPattern)
    (h : ∃ p ∈ rowPats, p.non_local ≠ []) :
    ∃ st2, merge_row distributed cmaps acc rowPats
      = Except.error
        ("Sub-sparsity pattern has not been finalised (apply needs to be called)",
         st2) := by
  unfold merge_row
  rcases h with ⟨p, hm, hp⟩
  rcases mem_enumFrom_of_mem p rowPats 0 hm with ⟨n, hn⟩
  obtain ⟨st2, he⟩ := merge_fold_error distributed cmaps acc.2 rowPats.enum
    ⟨acc.1.diagonal
        ++ List.replicate (rowPats.getD 0 default).im0.size_owned ∅,
     if distributed then
       acc.1.off_diagonal
        ++ List.replicate (rowPats.getD 0 default).im0.size_owned ∅
     else acc.1.off_diagonal⟩
    ⟨(n, p), hn, hp⟩
  rw [he]
  exact ⟨st2, rfl⟩

lemma merge_row_ok (distributed : Bool) (cmaps : List IndexMap)
    (acc : MergeState × Nat) (rowPats : List SparsityPattern)
    (h : ∀ p ∈ rowPats, p.non_local = []) :
    ∃ res, merge_row distributed cmaps acc rowPats = Except.ok res := by
  unfold merge_row
  rw [foldlM_except_ok
    (fun s cp => merge_block distributed cmaps acc.2 s cp.1 cp.2)
    (fun s cp =>
      ⟨merge_block_insert s.diagonal acc.2 cp.2.diagonal
         (get_global_index cmaps cp.1),
       if distributed then
         merge_block_insert s.off_diagonal acc.2 cp.2.off_diagonal
           (get_global_index cmaps cp.1)
       else s.off_diagonal⟩)
    (fun cp => cp.2.non_local = [])
    (fun b a ha => merge_block_ok distributed cmaps acc.2 b a.1 a.2 ha)
    rowPats.enum _
    (fun a hmem => h a.2 (snd_mem_of_mem_enumFrom rowPats 0 a hmem))]
  exact ⟨_, rfl⟩

lemma merge_outer_error (distributed : Bool) (cmaps : List IndexMap) :
    ∀ (patterns : List (List SparsityPattern)) (acc : MergeState × Nat),
      (∃ row ∈ patterns, ∃ p ∈ row, p.non_local ≠ []) →
      ∃ st2, patterns.foldlM (fun a r => merge_row distributed cmaps a r) acc
        = Except.error
          ("Sub-sparsity pattern has not been finalised (apply needs to be called)",
           st2) := by
  intro patterns
  induction patterns with
  | nil =>
    rintro acc ⟨row, hm, _⟩
    exact absurd hm (List.not_mem_nil row)
  | cons r t ih =>
    rintro acc hex
    rw [List.foldlM_cons]
    by_cases hr : ∃ p ∈ r, p.non_local ≠ []
    · obtain ⟨st2, he⟩ := merge_row_error distributed cmaps acc r hr
      rw [he]
      exact ⟨st2, rfl⟩
    · obtain ⟨res, he⟩ := merge_row_ok distributed cmaps acc r (by
        intro p hp
        by_contra hne
        exact hr ⟨p, hp, hne⟩)
      rw [he]
      apply ih
      rcases hex with ⟨row, hmem, hbadr⟩
      rcases List.mem_cons.mp hmem with rfl | hmt
      · exact absurd hbadr hr
      · exact ⟨row, hmt, hbadr⟩

/-! ### Claim C5 -/

/-- C5 (amended): the merge constructor fails with the descriptive
runtime error whenever any sub-pattern's non-local buffer is non-empty;
the check for each sub-pattern precedes merging that sub-pattern's own
entries, but it does not precede all mutation: sub-patterns visited
earlier in row-major order have already been merged into the composite
state carried at the throw (see the counterexample). -/
theorem c5_merge_unfinalised_error (comm_size comm_rank : Nat)
    (patterns : List (List SparsityPattern))
    (hbad : ∃ row ∈ patterns, ∃ p ∈ row, p.non_local ≠ []) :
    ∃ st, SparsityPattern.merge comm_size comm_rank patterns
      = Except.error
        ("Sub-sparsity pattern has not been finalised (apply needs to be called)",
         st) := by
  unfold SparsityPattern.merge
  obtain ⟨st2, he⟩ := merge_outer_error (decide (1 < comm_size))
    ((patterns.getD 0 []).map (fun p => p.im1)) patterns (⟨[], []⟩, 0) hbad
  rw [he]
  exact ⟨st2, rfl⟩

/-- Witness for C5: a 1x2 grid whose second block is unfinalised makes
the merge constructor fail. -/
theorem c5_merge_unfinalised_error_witness :
    (SparsityPattern.merge 1 0
      [[(SparsityPattern.create 1 0 ⟨1, 0, 1, [], [], 1⟩
            ⟨1, 0, 2, [], [], 2⟩).insert_global [0] [0],
        { SparsityPattern.create 1 0 ⟨1, 0, 1, [], [], 1⟩
            ⟨1, 0, 1, [], [], 1⟩ with non_local := [(9, 9)] }]]).isOk
      = false := by
  obtain ⟨st, he⟩ := c5_merge_unfinalised_error 1 0
    [[(SparsityPattern.create 1 0 ⟨1, 0, 1, [], [], 1⟩
          ⟨1, 0, 2, [], [], 2⟩).insert_global [0] [0],
      { SparsityPattern.create 1 0 ⟨1, 0, 1, [], [], 1⟩
          ⟨1, 0, 1, [], [], 1⟩ with non_local := [(9, 9)] }]]
    (by decide)
  rw [he]
  rfl

/-- C5 counterexample: the claim as stated also asserts the failure
precedes all mutation of the composite state; here the first block's
entry (column 0 of row 0) has already been merged into the composite
diagonal when the constructor throws on the second, unfinalised block:
the state carried at the throw is [{0}], not the pristine []. -/
theorem c5_counterexample :
    SparsityPattern.merge 1 0
      [[(SparsityPattern.create 1 0 ⟨1, 0, 1, [], [], 1⟩
            ⟨1, 0, 2, [], [], 2⟩).insert_global [0] [0],
        { SparsityPattern.create 1 0 ⟨1, 0, 1, [], [], 1⟩
            ⟨1, 0, 1, [], [], 1⟩ with non_local := [(9, 9)] }]]
      = Except.error
        ("Sub-sparsity pattern has not been finalised (apply needs to be called)",
         ⟨[{0}], []⟩)
    ∧ (⟨[{0}], []⟩ : MergeState).diagonal ≠ ([] : List (Finset Nat)) := by
  constructor
  · decide
  · decide


/-! ### Claim C6 -/

lemma merge_block_insert_length (d : List (Finset Nat)) (off : Nat)
    (src : List (Finset Nat)) (f : Nat → Nat) :
    (merge_block_insert d off src f).length = d.length := by
  unfold merge_block_insert
  generalize List.range src.length = idx
  induction idx generalizing d with
  | nil => rfl
  | cons a t ih => rw [List.foldl_cons, ih, List.length_set]

lemma blockFold_getD (off : Nat) (src : List (Finset Nat)) (f : Nat → Nat) :
    ∀ (idx : List Nat) (d : List (Finset Nat)) (r : Nat),
      ((idx.foldl
        (fun w k => w.set (k + off)
          ((w.getD (k + off) ∅) ∪ (src.getD k ∅).image f)) d).getD r ∅)
        = d.getD r ∅
          ∪ (if (∃ k ∈ idx, k + off = r) ∧ r < d.length
             then (src.getD (r - off) ∅).image f else ∅) := by
  intro idx
  induction idx with
  | nil => intro d r; simp
  | cons a t ih =>
    intro d r
    rw [List.foldl_cons, ih, List.length_set, getD_set_spec]
    by_cases hs : a + off = r
    · have hsrc : src.getD a ∅ = src.getD (r - off) ∅ := by
        have ha : a = r - off := by omega
        rw [ha]
      by_cases hr : r < d.length
      · rw [if_pos ⟨hs, by omega⟩, hs, hsrc]
        by_cases ht : (∃ k ∈ t, k + off = r) ∧ r < d.length
        · rw [if_pos ht, if_pos ⟨⟨a, List.mem_cons_self a t, hs⟩, hr⟩,
            Finset.union_assoc, Finset.union_self]
        · rw [if_neg ht, if_pos ⟨⟨a, List.mem_cons_self a t, hs⟩, hr⟩,
            Finset.union_empty]
      · rw [if_neg (by omega), if_neg (by rintro ⟨_, h2⟩; exact hr h2),
          if_neg (by rintro ⟨_, h2⟩; exact hr h2), Finset.union_empty]
    · rw [if_neg (by rintro ⟨h1, h2⟩; exact hs h1)]
      by_cases ht : (∃ k ∈ t, k + off = r) ∧ r < d.length
      · rcases ht.1 with ⟨k, hk, he⟩
        rw [if_pos ⟨⟨k, hk, he⟩, ht.2⟩,
          if_pos ⟨⟨k, List.mem_cons_of_mem a hk, he⟩, ht.2⟩]
      · rw [if_neg ht, if_neg (by
          rintro ⟨⟨k, hk, he⟩, hlt⟩
          rcases List.mem_cons.mp hk with rfl | hk2
          · exact hs he
          · exact ht ⟨⟨k, hk2, he⟩, hlt⟩)]

lemma merge_block_insert_getD (d : List (Finset Nat)) (off : Nat)
    (src : List (Finset Nat)) (f : Nat → Nat) (r : Nat) :
    (merge_block_insert d off src f).getD r ∅
      = d.getD r ∅
        ∪ (if off ≤ r ∧ r < off + src.length ∧ r < d.length
           then (src.getD (r - off) ∅).image f else ∅) := by
  unfold merge_block_insert
  rw [blockFold_getD]
  congr 1
  refine if_congr ?_ rfl rfl
  constructor
  · rintro ⟨⟨k, hk, he⟩, hlt⟩
    have := List.mem_range.mp hk
    omega
  · rintro ⟨h1, h2, h3⟩
    exact ⟨⟨r - off, List.mem_range.mpr (by omega), by omega⟩, h3⟩

/-- The value the merge constructor's row loop computes on a finalized
block row. -/
def merge_row_pure (distributed : Bool) (cmaps : List IndexMap)
    (acc : MergeState × Nat) (rowPats : List SparsityPattern) :
    MergeState × Nat :=
  (rowPats.enum.foldl
    (fun s cp =>
      ⟨merge_block_insert s.diagonal acc.2 cp.2.diagonal
         (get_global_index cmaps cp.1),
       if distributed then
         merge_block_insert s.off_diagonal acc.2 cp.2.off_diagonal
           (get_global_index cmaps cp.1)
       else s.off_diagonal⟩)
    ⟨acc.1.diagonal
       ++ List.replicate (rowPats.getD 0 default).im0.size_owned ∅,
     if distributed then
       acc.1.off_diagonal
         ++ List.replicate (rowPats.getD 0 default).im0.size_owned ∅
     else acc.1.off_diagonal⟩,
   acc.2 + (rowPats.getD 0 default).im0.size_owned)

lemma merge_row_eq_pure (distributed : Bool) (cmaps : List IndexMap)
    (acc : MergeState × Nat) (rowPats : List SparsityPattern)
    (h : ∀ p ∈ rowPats, p.non_local = []) :
    merge_row distributed cmaps acc rowPats
      = Except.ok (merge_row_pure distributed cmaps acc rowPats) := by
  unfold merge_row merge_row_pure
  rw [foldlM_except_ok
    (fun s cp => merge_block distributed cmaps acc.2 s cp.1 cp.2)
    (fun s cp =>
      ⟨merge_block_insert s.diagonal acc.2 cp.2.diagonal
         (get_global_index cmaps cp.1),
       if distributed then
         merge_block_insert s.off_diagonal acc.2 cp.2.off_diagonal
           (get_global_index cmaps cp.1)
       else s.off_diagonal⟩)
    (fun cp => cp.2.non_local = [])
    (fun b a ha => merge_block_ok distributed cmaps acc.2 b a.1 a.2 ha)
    rowPats.enum _
    (fun a hmem => h a.2 (snd_mem_of_mem_enumFrom rowPats 0 a hmem))]

lemma merge_foldlM_pure (D : Bool) (CM : List IndexMap)
    (patterns : List (List SparsityPattern))
    (hfin : ∀ row ∈ patterns, ∀ p ∈ row, p.non_local = []) :
    patterns.foldlM (fun acc r => merge_row D CM acc r)
      ((⟨[], []⟩, 0) : MergeState × Nat)
      = Except.ok (patterns.foldl (merge_row_pure D CM) (⟨[], []⟩, 0)) :=
  foldlM_except_ok
    (fun acc r => merge_row D CM acc r)
    (merge_row_pure D CM)
    (fun r => ∀ p ∈ r, p.non_local = [])
    (fun b a ha => merge_row_eq_pure D CM b a ha)
    patterns (⟨[], []⟩, 0) hfin

/-- The composite diagonal storage the merge constructor computes on a
grid of finalized sub-patterns. -/
def merge_pure_diag (comm_size : Nat)
    (patterns : List (List SparsityPattern)) : List (Finset Nat) :=
  (patterns.foldl
    (merge_row_pure (decide (1 < comm_size))
      ((patterns.getD 0 []).map (fun p => p.im1)))
    (⟨[], []⟩, 0)).1.diagonal

/-- The composite off-diagonal storage the merge constructor computes on
a grid of finalized sub-patterns. -/
def merge_pure_off (comm_size : Nat)
    (patterns : List (List SparsityPattern)) : List (Finset Nat) :=
  (patterns.foldl
    (merge_row_pure (decide (1 < comm_size))
      ((patterns.getD 0 []).map (fun p => p.im1)))
    (⟨[], []⟩, 0)).1.off_diagonal

lemma merge_eq_pure (comm_size comm_rank : Nat)
    (patterns : List (List SparsityPattern))
    (hfin : ∀ row ∈ patterns, ∀ p ∈ row, p.non_local = []) :
    SparsityPattern.merge comm_size comm_rank patterns
      = Except.ok
        ⟨comm_size, comm_rank,
         IndexMap.create_simple
           ((patterns.map (fun r => (r.getD 0 default).im0.size_owned)).sum),
         IndexMap.create_simple
           (((patterns.getD 0 []).map (fun p => p.im1.size_owned)).sum),
         merge_pure_diag comm_size patterns,
         merge_pure_off comm_size patterns,
         ∅, []⟩ := by
  unfold merge_pure_diag merge_pure_off
  unfold SparsityPattern.merge
  rw [merge_foldlM_pure (decide (1 < comm_size))
    ((patterns.getD 0 []).map (fun p => p.im1)) patterns hfin]


/-- C6: composing a 2x2 grid of finalized single-process sub-patterns of
sizes (m1,n1),(m1,n2) / (m2,n1),(m2,n2) yields a composite of size
(m1+m2, n1+n2) whose rows k < m1 carry block(0,0) row k's columns united
with block(0,1) row k's columns shifted by n1, and whose rows k >= m1
carry block(1,0) and block(1,1) row k-m1 analogously. -/
theorem c6_merge_2x2 (A B C D : SparsityPattern) (m1 m2 n1 n2 : Nat)
    (hAnl : A.non_local = []) (hBnl : B.non_local = [])
    (hCnl : C.non_local = []) (hDnl : D.non_local = [])
    (hAd : A.diagonal.length = m1) (hBd : B.diagonal.length = m1)
    (hCd : C.diagonal.length = m2) (hDd : D.diagonal.length = m2)
    (hAm : A.im0.size_owned = m1) (hCm : C.im0.size_owned = m2)
    (hA1b : A.im1.block_size = 1) (hA1g : A.im1.global_size = n1)
    (hA1o : A.im1.size_owned = n1) (hB1o : B.im1.size_owned = n2) :
    ∃ P, SparsityPattern.merge 1 0 [[A, B], [C, D]] = Except.ok P
    ∧ P.im0 = IndexMap.create_simple (m1 + m2)
    ∧ P.im1 = IndexMap.create_simple (n1 + n2)
    ∧ P.diagonal.length = m1 + m2
    ∧ (∀ k, k < m1 → P.diagonal.getD k ∅
        = A.diagonal.getD k ∅
          ∪ (B.diagonal.getD k ∅).image (fun c => c + n1))
    ∧ (∀ k, m1 ≤ k → k < m1 + m2 → P.diagonal.getD k ∅
        = C.diagonal.getD (k - m1) ∅
          ∪ (D.diagonal.getD (k - m1) ∅).image (fun c => c + n1)) := by
  have hfin : ∀ row ∈ [[A, B], [C, D]], ∀ p ∈ row, p.non_local = [] := by
    intro row hrow p hp
    rcases List.mem_cons.mp hrow with rfl | hrow2
    · rcases List.mem_cons.mp hp with rfl | hp2
      · exact hAnl
      · rcases List.mem_cons.mp hp2 with rfl | hp3
        · exact hBnl
        · exact absurd hp3 (List.not_mem_nil p)
    · rcases List.mem_cons.mp hrow2 with rfl | hrow3
      · rcases List.mem_cons.mp hp with rfl | hp2
        · exact hCnl
        · rcases List.mem_cons.mp hp2 with rfl | hp3
          · exact hDnl
          · exact absurd hp3 (List.not_mem_nil p)
      · exact absurd hrow3 (List.not_mem_nil row)
  have hMP : merge_pure_diag 1 [[A, B], [C, D]]
      = merge_block_insert
          (merge_block_insert
            ((merge_block_insert
                (merge_block_insert (List.replicate A.im0.size_owned ∅) 0
                  A.diagonal (get_global_index [A.im1, B.im1] 0))
                0 B.diagonal (get_global_index [A.im1, B.im1] 1))
              ++ List.replicate C.im0.size_owned ∅)
            (0 + A.im0.size_owned) C.diagonal
            (get_global_index [A.im1, B.im1] 0))
          (0 + A.im0.size_owned) D.diagonal
          (get_global_index [A.im1, B.im1] 1) := rfl
  have hlenA : (merge_block_insert (List.replicate A.im0.size_owned ∅) 0
      A.diagonal (get_global_index [A.im1, B.im1] 0)).length
      = A.im0.size_owned := by
    rw [merge_block_insert_length, List.length_replicate]
  have hlenX1 : (merge_block_insert
      (merge_block_insert (List.replicate A.im0.size_owned ∅) 0 A.diagonal
        (get_global_index [A.im1, B.im1] 0))
      0 B.diagonal (get_global_index [A.im1, B.im1] 1)).length
      = A.im0.size_owned := by
    rw [merge_block_insert_length, hlenA]
  have hlenX2 : ((merge_block_insert
      (merge_block_insert (List.replicate A.im0.size_owned ∅) 0 A.diagonal
        (get_global_index [A.im1, B.im1] 0))
      0 B.diagonal (get_global_index [A.im1, B.im1] 1))
      ++ List.replicate C.im0.size_owned ∅).length
      = A.im0.size_owned + C.im0.size_owned := by
    rw [List.length_append, hlenX1, List.length_replicate]
  have hlenX3 : (merge_block_insert
      ((merge_block_insert
          (merge_block_insert (List.replicate A.im0.size_owned ∅) 0
            A.diagonal (get_global_index [A.im1, B.im1] 0))
          0 B.diagonal (get_global_index [A.im1, B.im1] 1))
        ++ List.replicate C.im0.size_owned ∅)
      (0 + A.im0.size_owned) C.diagonal
      (get_global_index [A.im1, B.im1] 0)).length
      = A.im0.size_owned + C.im0.size_owned := by
    rw [merge_block_insert_length, hlenX2]
  have hg0 : ∀ s : Finset Nat,
      s.image (get_global_index [A.im1, B.im1] 0) = s := by
    intro s
    rw [show get_global_index [A.im1, B.im1] 0 = id from rfl]
    exact Finset.image_id
  have hg1 : ∀ s : Finset Nat,
      s.image (get_global_index [A.im1, B.im1] 1)
        = s.image (fun c => c + n1) := by
    intro s
    apply Finset.image_congr
    intro c _
    show get_global_index [A.im1, B.im1] 1 c = c + n1
    unfold get_global_index
    simp [hA1b, hA1g]
  refine ⟨_, merge_eq_pure 1 0 [[A, B], [C, D]] hfin, ?_, ?_, ?_, ?_, ?_⟩
  · show IndexMap.create_simple
      (([[A, B], [C, D]].map
        (fun r => (r.getD 0 default).im0.size_owned)).sum)
      = IndexMap.create_simple (m1 + m2)
    rw [show ([[A, B], [C, D]].map
        (fun r => (r.getD 0 default).im0.size_owned)).sum = m1 + m2 from by
      simp [hAm, hCm]]
  · show IndexMap.create_simple
      ((([[A, B], [C, D]].getD 0 []).map (fun p => p.im1.size_owned)).sum)
      = IndexMap.create_simple (n1 + n2)
    rw [show (([[A, B], [C, D]].getD 0 []).map
        (fun p => p.im1.size_owned)).sum = n1 + n2 from by
      simp [hA1o, hB1o]]
  · show (merge_pure_diag 1 [[A, B], [C, D]]).length = m1 + m2
    rw [hMP, merge_block_insert_length, hlenX3]
    omega
  · intro k hk
    show (merge_pure_diag 1 [[A, B], [C, D]]).getD k ∅ = _
    rw [hMP, merge_block_insert_getD,
      if_neg (by rintro ⟨h1, _⟩; omega), Finset.union_empty,
      merge_block_insert_getD,
      if_neg (by rintro ⟨h1, _⟩; omega), Finset.union_empty,
      getD_append_left _ _ _ _ (by rw [hlenX1]; omega),
      merge_block_insert_getD,
      if_pos ⟨Nat.zero_le k, by omega, by rw [hlenA]; omega⟩,
      merge_block_insert_getD,
      if_pos ⟨Nat.zero_le k, by omega, by rw [List.length_replicate]; omega⟩,
      Nat.sub_zero, getD_replicate, if_pos (by omega), Finset.empty_union,
      hg0, hg1]
  · intro k hk1 hk2
    show (merge_pure_diag 1 [[A, B], [C, D]]).getD k ∅ = _
    rw [hMP, merge_block_insert_getD,
      if_pos ⟨by omega, by omega, by rw [hlenX3]; omega⟩,
      merge_block_insert_getD,
      if_pos ⟨by omega, by omega, by rw [hlenX2]; omega⟩,
      getD_append_right _ _ _ _ (by rw [hlenX1]; omega),
      hlenX1, getD_replicate,
      show k - (0 + A.im0.size_owned) = k - m1 from by omega,
      show k - A.im0.size_owned = k - m1 from by omega,
      hg0, hg1]
    by_cases hcm : k - m1 < C.im0.size_owned
    · rw [if_pos hcm, Finset.empty_union]
    · rw [if_neg hcm, Finset.empty_union]

/-- Witness for C6: a concrete 2x2 grid with m1=1, m2=2, n1=2, n2=1. -/
theorem c6_merge_2x2_witness :
    ((SparsityPattern.merge 1 0
      [[(SparsityPattern.create 1 0 ⟨1, 0, 1, [], [], 1⟩
            ⟨1, 0, 2, [], [], 2⟩).insert_global [0] [0],
         (SparsityPattern.create 1 0 ⟨1, 0, 1, [], [], 1⟩
            ⟨1, 0, 1, [], [], 1⟩).insert_global [0] [0]],
        [(SparsityPattern.create 1 0 ⟨1, 0, 2, [], [], 2⟩
            ⟨1, 0, 2, [], [], 2⟩).insert_global [0, 1] [1],
         (SparsityPattern.create 1 0 ⟨1, 0, 2, [], [], 2⟩
            ⟨1, 0, 1, [], [], 1⟩).insert_global [1] [0]]]).toOption.map
      (fun P => (P.im0, P.im1, P.diagonal.length)))
      = some (IndexMap.create_simple 3, IndexMap.create_simple 3, 3)
    ∧ ((SparsityPattern.merge 1 0
      [[(SparsityPattern.create 1 0 ⟨1, 0, 1, [], [], 1⟩
            ⟨1, 0, 2, [], [], 2⟩).insert_global [0] [0],
         (SparsityPattern.create 1 0 ⟨1, 0, 1, [], [], 1⟩
            ⟨1, 0, 1, [], [], 1⟩).insert_global [0] [0]],
        [(SparsityPattern.create 1 0 ⟨1, 0, 2, [], [], 2⟩
            ⟨1, 0, 2, [], [], 2⟩).insert_global [0, 1] [1],
         (SparsityPattern.create 1 0 ⟨1, 0, 2, [], [], 2⟩
            ⟨1, 0, 1, [], [], 1⟩).insert_global [1] [0]]]).toOption.map
      (fun P => (P.diagonal.getD 0 ∅, P.diagonal.getD 1 ∅,
                 P.diagonal.getD 2 ∅)))
      = some ({0, 2}, {1}, {1, 2}) := by
  obtain ⟨P, hok, him0, him1, hlen, hlow, hhigh⟩ :=
    c6_merge_2x2
      ((SparsityPattern.create 1 0 ⟨1, 0, 1, [], [], 1⟩
          ⟨1, 0, 2, [], [], 2⟩).insert_global [0] [0])
      ((SparsityPattern.create 1 0 ⟨1, 0, 1, [], [], 1⟩
          ⟨1, 0, 1, [], [], 1⟩).insert_global [0] [0])
      ((SparsityPattern.create 1 0 ⟨1, 0, 2, [], [], 2⟩
          ⟨1, 0, 2, [], [], 2⟩).insert_global [0, 1] [1])
      ((SparsityPattern.create 1 0 ⟨1, 0, 2, [], [], 2⟩
          ⟨1, 0, 1, [], [], 1⟩).insert_global [1] [0])
      1 2 2 1 (by decide) (by decide) (by decide) (by decide) (by decide)
      (by decide) (by decide) (by decide) (by decide) (by decide)
      (by decide) (by decide) (by decide) (by decide)
  constructor
  · rw [hok]
    show some (P.im0, P.im1, P.diagonal.length) = _
    rw [him0, him1, hlen]
  · rw [hok]
    show some (P.diagonal.getD 0 ∅, P.diagonal.getD 1 ∅,
      P.diagonal.getD 2 ∅) = _
    rw [hlow 0 (by decide), hhigh 1 (by decide) (by decide),
      hhigh 2 (by decide) (by decide)]
    decide


/-! ### Claim C1: multi-process runs refine the single-process run -/

lemma colsFor_mem (calls : List (List Nat × List Nat)) (r J : Nat) :
    J ∈ colsFor calls r ↔ ∃ c ∈ calls, r ∈ c.1 ∧ J ∈ c.2 := by
  constructor
  · exact colsFor_row_bound calls r J
  · rintro ⟨c, hc, hr, hJ⟩
    induction calls with
    | nil => exact absurd hc (List.not_mem_nil c)
    | cons c2 rest ih =>
      rw [colsFor_cons, Finset.mem_union]
      rcases List.mem_cons.mp hc with rfl | hc2
      · left
        rw [if_pos hr]
        exact List.mem_toFinset.mpr hJ
      · right
        exact ih hc2

lemma parAdds_union_ident (m0 m1 : IndexMap) (rows cols : List Nat) (r : Nat) :
    parDiagAdds m0 m1 ∅ (fun i _ => i) (fun j _ => j) rows cols r
      ∪ parOffAdds m0 m1 ∅ (fun i _ => i) (fun j _ => j) rows cols r
      = if r ∈ rows ∧ r < m0.block_size * m0.size_owned
        then cols.toFinset else ∅ := by
  unfold parDiagAdds parOffAdds
  have hcond : (¬(0 < (∅ : Finset Nat).card ∧ r ∈ (∅ : Finset Nat))
      ∧ r < m0.block_size * m0.size_owned
      ∧ rowHit m0 (fun i _ => i) rows r)
      ↔ (r ∈ rows ∧ r < m0.block_size * m0.size_owned) := by
    unfold rowHit
    constructor
    · rintro ⟨_, hlt, i, hi, rfl⟩
      exact ⟨hi, hlt⟩
    · rintro ⟨hmem, hlt⟩
      exact ⟨by simp, hlt, r, hmem, rfl⟩
  rw [if_congr hcond rfl rfl, if_congr hcond rfl rfl]
  by_cases h : r ∈ rows ∧ r < m0.block_size * m0.size_owned
  · simp only [if_pos h]
    unfold inColsF outColsF
    rw [show cols.map (fun j => (fun j _ => j) j m1) = cols from List.map_id cols]
    exact Finset.filter_union_filter_neg_eq
      (fun J => m1.block_size * m1.range_start ≤ J
        ∧ J < m1.block_size * m1.range_end) cols.toFinset
  · simp only [if_neg h, Finset.union_empty]

lemma nlAdds_ident_mem (m0 m1 : IndexMap) (rows cols : List Nat)
    (e : Nat × Nat) :
    e ∈ nlAdds m0 m1 ∅ (fun i _ => i) (fun j _ => j) rows cols
      ↔ e.1 ∈ rows ∧ ¬e.1 < m0.block_size * m0.size_owned ∧ e.2 ∈ cols := by
  unfold nlAdds
  rw [List.mem_flatMap]
  constructor
  · rintro ⟨i, hi, hmem⟩
    by_cases hc : (0 < (∅ : Finset Nat).card ∧ i ∈ (∅ : Finset Nat))
        ∨ i < m0.block_size * m0.size_owned
    · rw [if_pos hc] at hmem
      exact absurd hmem (List.not_mem_nil e)
    · rw [if_neg hc] at hmem
      rcases List.mem_map.mp hmem with ⟨j, hj, he⟩
      rcases he.symm with rfl
      exact ⟨hi, fun hlt => hc (Or.inr hlt), hj⟩
  · rintro ⟨h1, h2, h3⟩
    refine ⟨e.1, h1, ?_⟩
    rw [if_neg (by
      rintro (⟨hcard, _⟩ | hlt)
      · simp at hcard
      · exact h2 hlt)]
    exact List.mem_map.mpr ⟨e.2, h3, by rw [Prod.mk.eta]⟩

/-- Full characterization of a run of insert_local_global calls in
parallel mode starting from a pattern with no full rows. -/
lemma run_par_spec (calls : List (List Nat × List Nat)) :
    ∀ (sp : SparsityPattern), ¬sp.mpi_size = 1 → sp.full_rows = ∅ →
      sp.diagonal.length = sp.im0.block_size * sp.im0.size_owned →
      sp.off_diagonal.length = sp.im0.block_size * sp.im0.size_owned →
      ((run_insert_local_global sp calls).frame = sp.frame)
      ∧ ((run_insert_local_global sp calls).diagonal.length
          = sp.diagonal.length)
      ∧ ((run_insert_local_global sp calls).off_diagonal.length
          = sp.off_diagonal.length)
      ∧ (∀ r, (run_insert_local_global sp calls).diagonal.getD r ∅
            ∪ (run_insert_local_global sp calls).off_diagonal.getD r ∅
          = (sp.diagonal.getD r ∅ ∪ sp.off_diagonal.getD r ∅)
            ∪ (if r < sp.im0.block_size * sp.im0.size_owned
               then colsFor calls r else ∅))
      ∧ (∀ e, e ∈ (run_insert_local_global sp calls).non_local
          ↔ e ∈ sp.non_local
            ∨ (¬e.1 < sp.im0.block_size * sp.im0.size_owned
                ∧ e.2 ∈ colsFor calls e.1)) := by
  induction calls with
  | nil =>
    intro sp _ _ _ _
    refine ⟨rfl, rfl, rfl, ?_, ?_⟩
    · intro r
      show sp.diagonal.getD r ∅ ∪ sp.off_diagonal.getD r ∅ = _
      by_cases hr : r < sp.im0.block_size * sp.im0.size_owned
      · simp [colsFor, hr]
      · simp [colsFor, hr]
    · intro e
      show e ∈ sp.non_local ↔ _
      simp [colsFor]
  | cons c rest ih =>
    intro sp hm hf hd ho
    have hstep : run_insert_local_global sp (c :: rest)
        = run_insert_local_global
            (sp.insert_entries c.1 c.2 (fun i _ => i) (fun j _ => j)) rest := rfl
    rcases insert_entries_par_spec sp c.1 c.2 (fun i _ => i) (fun j _ => j)
      hm hd ho with ⟨h1, h2, h3, h4, h5, h6⟩
    have hfr : (sp.insert_entries c.1 c.2 (fun i _ => i)
        (fun j _ => j)).frame = sp.frame := h1
    have hmpi : (sp.insert_entries c.1 c.2 (fun i _ => i)
        (fun j _ => j)).mpi_size = sp.mpi_size := congrArg Prod.fst h1
    have him0 : (sp.insert_entries c.1 c.2 (fun i _ => i)
        (fun j _ => j)).im0 = sp.im0 :=
      congrArg (fun x => x.2.2.1) h1
    have hful : (sp.insert_entries c.1 c.2 (fun i _ => i)
        (fun j _ => j)).full_rows = sp.full_rows :=
      congrArg (fun x => x.2.2.2.2) h1
    rcases ih (sp.insert_entries c.1 c.2 (fun i _ => i) (fun j _ => j))
      (by rw [hmpi]; exact hm) (by rw [hful]; exact hf)
      (by rw [h2, him0]; exact hd) (by rw [h3, him0]; exact ho) with
      ⟨g1, g2, g3, g4, g5⟩
    rw [hstep]
    refine ⟨g1.trans hfr, by rw [g2, h2], by rw [g3, h3], ?_, ?_⟩
    · intro r
      rw [g4 r, him0, h5 r, h6 r, hf]
      have hsets : sp.diagonal.getD r ∅
            ∪ parDiagAdds sp.im0 sp.im1 ∅ (fun i _ => i) (fun j _ => j)
                c.1 c.2 r
            ∪ (sp.off_diagonal.getD r ∅
            ∪ parOffAdds sp.im0 sp.im1 ∅ (fun i _ => i) (fun j _ => j)
                c.1 c.2 r)
          = sp.diagonal.getD r ∅ ∪ sp.off_diagonal.getD r ∅
            ∪ (if r ∈ c.1 ∧ r < sp.im0.block_size * sp.im0.size_owned
               then c.2.toFinset else ∅) := by
        rw [← parAdds_union_ident sp.im0 sp.im1 c.1 c.2 r]
        rw [Finset.union_union_union_comm]
      rw [hsets]
      by_cases hr : r < sp.im0.block_size * sp.im0.size_owned
      · rw [if_pos hr, if_pos hr, colsFor_cons, Finset.union_assoc]
        by_cases hmem : r ∈ c.1
        · rw [if_pos ⟨hmem, hr⟩, if_pos hmem]
        · rw [if_neg (by tauto), if_neg hmem, Finset.empty_union]
      · rw [if_neg (by tauto), if_neg hr, if_neg hr, Finset.union_empty,
          Finset.union_empty]
    · intro e
      rw [g5 e, him0, h4, hf, List.mem_append]
      constructor
      · rintro ((he | hadd) | hrest)
        · exact Or.inl he
        · rcases (nlAdds_ident_mem sp.im0 sp.im1 c.1 c.2 e).mp hadd with
            ⟨ha, hb, hc2⟩
          refine Or.inr ⟨hb, ?_⟩
          rw [colsFor_cons, Finset.mem_union, if_pos ha]
          exact Or.inl (List.mem_toFinset.mpr hc2)
        · rcases hrest with ⟨hb, hcf⟩
          refine Or.inr ⟨hb, ?_⟩
          rw [colsFor_cons, Finset.mem_union]
          exact Or.inr hcf
      · rintro (he | ⟨hb, hcf⟩)
        · exact Or.inl (Or.inl he)
        · rw [colsFor_cons, Finset.mem_union] at hcf
          rcases hcf with hone | hrest2
          · by_cases hmem : e.1 ∈ c.1
            · rw [if_pos hmem] at hone
              exact Or.inl (Or.inr ((nlAdds_ident_mem sp.im0 sp.im1
                c.1 c.2 e).mpr ⟨hmem, hb, List.mem_toFinset.mp hone⟩))
            · rw [if_neg hmem] at hone
              exact absurd hone (Finset.not_mem_empty e.2)
          · exact Or.inr ⟨hb, hrest2⟩

/-! ### Entry-set membership and update lemmas -/

lemma entriesOf_mem (dg og : List (Finset Nat)) (x : Nat × Nat) :
    x ∈ entriesOf dg og
      ↔ x.1 < dg.length ∧ x.2 ∈ dg.getD x.1 ∅ ∪ og.getD x.1 ∅ := by
  unfold entriesOf
  rw [Finset.mem_biUnion]
  constructor
  · rintro ⟨i, hi, hx⟩
    rcases Finset.mem_image.mp hx with ⟨J, hJ, he⟩
    subst he
    exact ⟨Finset.mem_range.mp hi, hJ⟩
  · rintro ⟨h1, h2⟩
    exact ⟨x.1, Finset.mem_range.mpr h1,
      Finset.mem_image.mpr ⟨x.2, h2, Prod.mk.eta⟩⟩

lemma entriesGlobal_mem (sp : SparsityPattern) (x : Nat × Nat) :
    x ∈ sp.entriesGlobal
      ↔ ∃ y ∈ sp.entriesLocal,
          x = (sp.im0.block_size * sp.im0.range_start + y.1, y.2) := by
  unfold SparsityPattern.entriesGlobal
  rw [Finset.mem_image]
  constructor
  · rintro ⟨y, hy, he⟩
    exact ⟨y, hy, he.symm⟩
  · rintro ⟨y, hy, he⟩
    exact ⟨y, hy, he.symm⟩

lemma entriesOf_set_diag (dg og : List (Finset Nat)) (i J : Nat)
    (hi : i < dg.length) :
    entriesOf (dg.set i (insert J (dg.getD i ∅))) og
      = insert (i, J) (entriesOf dg og) := by
  apply Finset.ext
  intro x
  rw [entriesOf_mem, Finset.mem_insert, entriesOf_mem, List.length_set,
    getD_set_spec]
  by_cases hxi : i = x.1
  · subst hxi
    rw [if_pos ⟨rfl, hi⟩]
    constructor
    · rintro ⟨h1, h2⟩
      rcases Finset.mem_union.mp h2 with hd | ho2
      · rcases Finset.mem_insert.mp hd with hJ | hd2
        · exact Or.inl (Prod.ext_iff.mpr ⟨rfl, hJ⟩)
        · exact Or.inr ⟨h1, Finset.mem_union_left _ hd2⟩
      · exact Or.inr ⟨h1, Finset.mem_union_right _ ho2⟩
    · rintro (hEq | ⟨h1, h2⟩)
      · rcases Prod.ext_iff.mp hEq with ⟨_, h2⟩
        exact ⟨hi, Finset.mem_union_left _
          (by rw [h2]; exact Finset.mem_insert_self _ _)⟩
      · refine ⟨h1, ?_⟩
        rcases Finset.mem_union.mp h2 with hd | ho2
        · exact Finset.mem_union_left _ (Finset.mem_insert_of_mem hd)
        · exact Finset.mem_union_right _ ho2
  · rw [if_neg (fun hc => hxi hc.1)]
    constructor
    · rintro ⟨h1, h2⟩
      exact Or.inr ⟨h1, h2⟩
    · rintro (hEq | hOk)
      · exact absurd (congrArg Prod.fst hEq).symm hxi
      · exact hOk

lemma entriesOf_set_off (dg og : List (Finset Nat)) (i J : Nat)
    (hi : i < dg.length) (hio : i < og.length) :
    entriesOf dg (og.set i (insert J (og.getD i ∅)))
      = insert (i, J) (entriesOf dg og) := by
  apply Finset.ext
  intro x
  rw [entriesOf_mem, Finset.mem_insert, entriesOf_mem, getD_set_spec]
  by_cases hxi : i = x.1
  · subst hxi
    rw [if_pos ⟨rfl, hio⟩]
    constructor
    · rintro ⟨h1, h2⟩
      rcases Finset.mem_union.mp h2 with hd | ho2
      · exact Or.inr ⟨h1, Finset.mem_union_left _ hd⟩
      · rcases Finset.mem_insert.mp ho2 with hJ | ho3
        · exact Or.inl (Prod.ext_iff.mpr ⟨rfl, hJ⟩)
        · exact Or.inr ⟨h1, Finset.mem_union_right _ ho3⟩
    · rintro (hEq | ⟨h1, h2⟩)
      · rcases Prod.ext_iff.mp hEq with ⟨_, h2⟩
        exact ⟨hi, Finset.mem_union_right _
          (by rw [h2]; exact Finset.mem_insert_self _ _)⟩
      · refine ⟨h1, ?_⟩
        rcases Finset.mem_union.mp h2 with hd | ho2
        · exact Finset.mem_union_left _ hd
        · exact Finset.mem_union_right _ (Finset.mem_insert_of_mem ho2)
  · rw [if_neg (fun hc => hxi hc.1)]
    constructor
    · rintro ⟨h1, h2⟩
      exact Or.inr ⟨h1, h2⟩
    · rintro (hEq | hOk)
      · exact absurd (congrArg Prod.fst hEq).symm hxi
      · exact hOk

lemma map_range_getD {α : Type} (f : Nat → α) (P q : Nat) (d : α)
    (h : q < P) : ((List.range P).map f).getD q d = f q := by
  rw [getD_eq_get _ _ _ (by simpa using h)]
  simp [List.get_eq_getElem]

/-! ### Resolution and exchange characterization -/

/-- The owner rank that apply() computes for a buffered (ghosted) local
row: the ghost-owner entry of the row's ghost node slot. -/
def IndexMap.ghost_owner_of (m : IndexMap) (i : Nat) : Nat :=
  m.ghost_owners.getD ((i - m.block_size * m.size_owned) / m.block_size) 0

lemma non_local_send_pairs_eq (sp : SparsityPattern)
    (h : ∀ e ∈ sp.non_local,
      ¬e.1 < sp.im0.block_size * sp.im0.size_owned) :
    sp.non_local_send_pairs
      = sp.non_local.map (fun e =>
          (sp.im0.ghost_owner_of e.1, (sp.im0.global_row e.1, e.2))) := by
  have hrw : sp.non_local_send_pairs
      = sp.non_local.map (fun e =>
          (sp.im0.ghost_owners.getD
             ((e.1 - sp.im0.block_size * sp.im0.size_owned)
               / sp.im0.block_size) 0,
           (if e.1 < sp.im0.block_size * sp.im0.size_owned
            then e.1 + sp.im0.block_size * sp.im0.range_start
            else sp.im0.block_size
                * (sp.im0.ghosts.getD
                    ((e.1 - sp.im0.block_size * sp.im0.size_owned)
                      / sp.im0.block_size) 0)
              + (e.1 - sp.im0.block_size * sp.im0.size_owned)
                  % sp.im0.block_size,
            e.2))) := rfl
  rw [hrw]
  apply List.map_congr_left
  intro e he
  have hne := h e he
  simp only [IndexMap.ghost_owner_of, IndexMap.global_row, if_neg hne]

lemma system_received_mem (sys : List SparsityPattern) (q : Nat)
    (x : Nat × Nat) :
    x ∈ system_received sys q
      ↔ ∃ sp ∈ sys, (q, x) ∈ sp.non_local_send_pairs := by
  unfold system_received
  rw [List.mem_flatten]
  constructor
  · rintro ⟨l, hl, hx⟩
    rcases List.mem_map.mp hl with ⟨sq, hsq, hle⟩
    subst hle
    rcases List.mem_map.mp hx with ⟨e, he, hee⟩
    subst hee
    rcases List.mem_filter.mp he with ⟨hmem, hp⟩
    have hq : e.1 = q := by simpa using hp
    refine ⟨sq, hsq, ?_⟩
    rw [show (q, e.2) = e from Prod.ext_iff.mpr ⟨hq.symm, rfl⟩]
    exact hmem
  · rintro ⟨sp, hsp, hmem⟩
    refine ⟨(sp.non_local_send_pairs.filter
        (fun e => e.1 = q)).map (fun e => e.2), ?_, ?_⟩
    · exact List.mem_map.mpr ⟨sp, hsp, rfl⟩
    · exact List.mem_map.mpr
        ⟨(q, x), List.mem_filter.mpr ⟨hmem, by simp⟩, rfl⟩

/-! ### Received-entry insertion characterization -/

lemma insert_received_fold_spec (m0 m1 : IndexMap)
    (hb : 0 < m0.block_size) (hre : m0.range_start ≤ m0.range_end) :
    ∀ (received : List (Nat × Nat)) (sp : SparsityPattern),
      sp.diagonal.length = m0.block_size * m0.size_owned →
      sp.off_diagonal.length = m0.block_size * m0.size_owned →
      (∀ e ∈ received, m0.block_size * m0.range_start ≤ e.1
        ∧ e.1 < m0.block_size * m0.range_end) →
      ∃ sp2, received.foldlM (insertReceivedStep m0 m1) sp = Except.ok sp2
        ∧ sp2.frame = sp.frame
        ∧ sp2.diagonal.length = sp.diagonal.length
        ∧ sp2.off_diagonal.length = sp.off_diagonal.length
        ∧ sp2.non_local = sp.non_local
        ∧ sp2.entriesLocal
            = sp.entriesLocal
              ∪ (received.map (fun e =>
                  (e.1 - m0.block_size * m0.range_start, e.2))).toFinset := by
  intro received
  induction received with
  | nil =>
    intro sp _ _ _
    exact ⟨sp, rfl, rfl, rfl, rfl, rfl, by simp⟩
  | cons e rest ih =>
    intro sp hd ho hall
    rcases hall e (by simp) with ⟨hlo, hhi⟩
    have hnerr : ¬(e.1 < m0.range_start
        ∨ m0.block_size * m0.range_end ≤ e.1) := by
      rintro (h1 | h2)
      · have hrs : m0.range_start ≤ m0.block_size * m0.range_start :=
          Nat.le_mul_of_pos_left _ hb
        omega
      · omega
    have hsplit : m0.block_size * m0.range_end
        = m0.block_size * m0.range_start + m0.block_size * m0.size_owned := by
      unfold IndexMap.size_owned
      rw [← Nat.mul_add]
      congr 1
      omega
    have hi_lt : e.1 - m0.block_size * m0.range_start
        < m0.block_size * m0.size_owned := by
      omega
    have hrestmap : ((e :: rest).map (fun a =>
          (a.1 - m0.block_size * m0.range_start, a.2))).toFinset
        = insert (e.1 - m0.block_size * m0.range_start, e.2)
            ((rest.map (fun a =>
              (a.1 - m0.block_size * m0.range_start, a.2))).toFinset) := by
      rw [List.map_cons, List.toFinset_cons]
    by_cases hJ : m1.block_size * m1.range_start ≤ e.2
        ∧ e.2 < m1.block_size * m1.range_end
    · set D := sp.diagonal.set (e.1 - m0.block_size * m0.range_start)
        (insert e.2 (sp.diagonal.getD
          (e.1 - m0.block_size * m0.range_start) ∅)) with hD
      have hstep : insertReceivedStep m0 m1 sp e
          = Except.ok { sp with diagonal := D } := by
        simp only [insertReceivedStep]
        rw [if_neg hnerr, if_pos hJ, hD]
      have hlen : ({ sp with diagonal := D } :
          SparsityPattern).diagonal.length = m0.block_size * m0.size_owned := by
        show D.length = _
        rw [hD, List.length_set]
        exact hd
      rcases ih { sp with diagonal := D } hlen ho
          (fun a ha => hall a (by simp [ha])) with
        ⟨sp2, hrun, hfr, hdl, hol, hnl, hent⟩
      refine ⟨sp2, ?_, hfr, ?_, hol, hnl, ?_⟩
      · rw [List.foldlM_cons, hstep]
        exact hrun
      · rw [hdl, hlen, hd]
      · have hloc : ({ sp with diagonal := D } :
            SparsityPattern).entriesLocal
            = insert (e.1 - m0.block_size * m0.range_start, e.2)
                (entriesOf sp.diagonal sp.off_diagonal) := by
          show entriesOf D sp.off_diagonal = _
          rw [hD]
          exact entriesOf_set_diag sp.diagonal sp.off_diagonal _ e.2
            (by rw [hd]; exact hi_lt)
        rw [hent, hloc, hrestmap, Finset.union_insert, Finset.insert_union]
        rfl
    · set O := sp.off_diagonal.set (e.1 - m0.block_size * m0.range_start)
        (insert e.2 (sp.off_diagonal.getD
          (e.1 - m0.block_size * m0.range_start) ∅)) with hO
      have hstep : insertReceivedStep m0 m1 sp e
          = Except.ok { sp with off_diagonal := O } := by
        simp only [insertReceivedStep]
        rw [if_neg hnerr, if_neg hJ, hO]
      have hlen : ({ sp with off_diagonal := O } :
          SparsityPattern).off_diagonal.length
            = m0.block_size * m0.size_owned := by
        show O.length = _
        rw [hO, List.length_set]
        exact ho
      rcases ih { sp with off_diagonal := O } hd hlen
          (fun a ha => hall a (by simp [ha])) with
        ⟨sp2, hrun, hfr, hdl, hol, hnl, hent⟩
      refine ⟨sp2, ?_, hfr, hdl, ?_, hnl, ?_⟩
      · rw [List.foldlM_cons, hstep]
        exact hrun
      · rw [hol, hlen, ho]
      · have hloc : ({ sp with off_diagonal := O } :
            SparsityPattern).entriesLocal
            = insert (e.1 - m0.block_size * m0.range_start, e.2)
                (entriesOf sp.diagonal sp.off_diagonal) := by
          show entriesOf sp.diagonal O = _
          rw [hO]
          exact entriesOf_set_off sp.diagonal sp.off_diagonal _ e.2
            (by rw [hd]; exact hi_lt) (by rw [ho]; exact hi_lt)
        rw [hent, hloc, hrestmap, Finset.union_insert, Finset.insert_union]
        rfl

/-! ### Runs from a fresh pattern -/

lemma entriesLocal_mem (sp : SparsityPattern) (x : Nat × Nat) :
    x ∈ sp.entriesLocal
      ↔ x.1 < sp.diagonal.length
        ∧ x.2 ∈ sp.diagonal.getD x.1 ∅ ∪ sp.off_diagonal.getD x.1 ∅ :=
  entriesOf_mem sp.diagonal sp.off_diagonal x

lemma create_diag_length (P p : Nat) (m0 m1 : IndexMap) :
    (SparsityPattern.create P p m0 m1).diagonal.length
      = m0.block_size * m0.size_owned := by
  simp [SparsityPattern.create]

lemma create_off_length (P p : Nat) (m0 m1 : IndexMap) :
    (SparsityPattern.create P p m0 m1).off_diagonal.length
      = m0.block_size * m0.size_owned := by
  simp [SparsityPattern.create]

lemma run_create_entries_mem (P p : Nat) (m0 m1 : IndexMap)
    (calls : List (List Nat × List Nat)) (hm : ¬P = 1) (x : Nat × Nat) :
    x ∈ (run_insert_local_global (SparsityPattern.create P p m0 m1)
          calls).entriesLocal
      ↔ x.1 < m0.block_size * m0.size_owned ∧ x.2 ∈ colsFor calls x.1 := by
  rcases run_par_spec calls (SparsityPattern.create P p m0 m1) hm rfl
      (create_diag_length P p m0 m1) (create_off_length P p m0 m1) with
    ⟨_, h2, _, h4, _⟩
  rw [entriesLocal_mem, h2, create_diag_length]
  have h4x := h4 x.1
  simp only [show (SparsityPattern.create P p m0 m1).im0 = m0 from rfl] at h4x
  have hbase : (SparsityPattern.create P p m0 m1).diagonal.getD x.1 ∅
      ∪ (SparsityPattern.create P p m0 m1).off_diagonal.getD x.1 ∅ = ∅ := by
    show (List.replicate _ (∅ : Finset Nat)).getD x.1 ∅
      ∪ (List.replicate _ (∅ : Finset Nat)).getD x.1 ∅ = ∅
    rw [getD_replicate]
    simp
  rw [hbase, Finset.empty_union] at h4x
  rw [h4x]
  constructor
  · rintro ⟨ha, hb⟩
    rw [if_pos ha] at hb
    exact ⟨ha, hb⟩
  · rintro ⟨ha, hb⟩
    rw [if_pos ha]
    exact ⟨ha, hb⟩

lemma run_create_non_local_mem (P p : Nat) (m0 m1 : IndexMap)
    (calls : List (List Nat × List Nat)) (hm : ¬P = 1) (e : Nat × Nat) :
    e ∈ (run_insert_local_global (SparsityPattern.create P p m0 m1)
          calls).non_local
      ↔ ¬e.1 < m0.block_size * m0.size_owned ∧ e.2 ∈ colsFor calls e.1 := by
  rcases run_par_spec calls (SparsityPattern.create P p m0 m1) hm rfl
      (create_diag_length P p m0 m1) (create_off_length P p m0 m1) with
    ⟨_, _, _, _, h5⟩
  have h5e := h5 e
  simp only [show (SparsityPattern.create P p m0 m1).im0 = m0 from rfl] at h5e
  rw [h5e]
  constructor
  · rintro (he | h)
    · exact absurd he (List.not_mem_nil e)
    · exact h
  · exact Or.inr

lemma run_create_frame (P p : Nat) (m0 m1 : IndexMap)
    (calls : List (List Nat × List Nat)) (hm : ¬P = 1) :
    (run_insert_local_global (SparsityPattern.create P p m0 m1) calls).frame
      = (P, p, m0, m1, ∅) := by
  rcases run_par_spec calls (SparsityPattern.create P p m0 m1) hm rfl
      (create_diag_length P p m0 m1) (create_off_length P p m0 m1) with
    ⟨h1, _, _, _, _⟩
  exact h1

lemma run_create_lengths (P p : Nat) (m0 m1 : IndexMap)
    (calls : List (List Nat × List Nat)) (hm : ¬P = 1) :
    (run_insert_local_global (SparsityPattern.create P p m0 m1)
        calls).diagonal.length = m0.block_size * m0.size_owned
    ∧ (run_insert_local_global (SparsityPattern.create P p m0 m1)
        calls).off_diagonal.length = m0.block_size * m0.size_owned := by
  rcases run_par_spec calls (SparsityPattern.create P p m0 m1) hm rfl
      (create_diag_length P p m0 m1) (create_off_length P p m0 m1) with
    ⟨_, h2, h3, _, _⟩
  exact ⟨h2.trans (create_diag_length P p m0 m1),
    h3.trans (create_off_length P p m0 m1)⟩

lemma single_run_entries_mem (imS im1S : IndexMap)
    (calls : List (List Nat × List Nat)) (x : Nat × Nat) :
    x ∈ (run_insert_global (SparsityPattern.create 1 0 imS im1S)
          calls).entriesLocal
      ↔ x.1 < imS.block_size * imS.size_owned
        ∧ x.2 ∈ colsFor calls x.1 := by
  have hm : (SparsityPattern.create 1 0 imS im1S).mpi_size = 1 := rfl
  have hf : (SparsityPattern.create 1 0 imS im1S).full_rows = ∅ := rfl
  rw [entriesLocal_mem]
  have hlen := run_insert_global_seq_len calls _ hm hf
  have hgetD := run_insert_global_seq_getD calls _ hm hf x.1
  have hoff : (run_insert_global (SparsityPattern.create 1 0 imS im1S)
        calls).off_diagonal
      = (SparsityPattern.create 1 0 imS im1S).off_diagonal := by
    rw [run_insert_global_seq_eq calls _ hm hf]
  have hb1 : (SparsityPattern.create 1 0 imS im1S).diagonal.getD x.1 ∅
      = ∅ := by
    show (List.replicate _ (∅ : Finset Nat)).getD x.1 ∅ = ∅
    rw [getD_replicate]
    simp
  have hb2 : (SparsityPattern.create 1 0 imS im1S).off_diagonal.getD x.1 ∅
      = ∅ := by
    show (List.replicate _ (∅ : Finset Nat)).getD x.1 ∅ = ∅
    rw [getD_replicate]
    simp
  rw [hlen, create_diag_length, hgetD, hoff, hb1, hb2, Finset.empty_union,
    Finset.union_empty, create_diag_length]
  constructor
  · rintro ⟨ha, hb⟩
    rw [if_pos ha] at hb
    exact ⟨ha, hb⟩
  · rintro ⟨ha, hb⟩
    rw [if_pos ha]
    exact ⟨ha, hb⟩

/-! ### Ghost-row destination arithmetic -/

lemma ghost_slot_lt (m : IndexMap) (r : Nat) (hbs : 0 < m.block_size)
    (hr1 : ¬r < m.block_size * m.size_owned)
    (hr2 : r < m.block_size * m.size_all) :
    (r - m.block_size * m.size_owned) / m.block_size < m.ghosts.length := by
  have h2 : m.block_size * m.size_all
      = m.block_size * m.size_owned + m.block_size * m.ghosts.length := by
    unfold IndexMap.size_all
    rw [Nat.mul_add]
  rw [Nat.div_lt_iff_lt_mul hbs]
  have h3 : m.ghosts.length * m.block_size
      = m.block_size * m.ghosts.length := Nat.mul_comm _ _
  omega

lemma owned_row_global (m : IndexMap) (r : Nat)
    (hr : r < m.block_size * m.size_owned) :
    m.global_row r = m.block_size * m.range_start + r := by
  simp only [IndexMap.global_row]
  rw [if_pos hr]

lemma range_split (m : IndexMap) (hre : m.range_start ≤ m.range_end) :
    m.block_size * m.range_end
      = m.block_size * m.range_start + m.block_size * m.size_owned := by
  unfold IndexMap.size_owned
  rw [← Nat.mul_add]
  congr 1
  omega

lemma owned_row_range (m : IndexMap) (r : Nat)
    (hre : m.range_start ≤ m.range_end)
    (hr : r < m.block_size * m.size_owned) :
    m.block_size * m.range_start ≤ m.global_row r
      ∧ m.global_row r < m.block_size * m.range_end := by
  rw [owned_row_global m r hr]
  have hsplit := range_split m hre
  omega

lemma ghost_row_range (m : IndexMap) (rsq req : Nat) (r : Nat)
    (hbs : 0 < m.block_size)
    (hr1 : ¬r < m.block_size * m.size_owned)
    (hlo : rsq ≤ m.ghosts.getD
      ((r - m.block_size * m.size_owned) / m.block_size) 0)
    (hhi : m.ghosts.getD
      ((r - m.block_size * m.size_owned) / m.block_size) 0 < req) :
    m.block_size * rsq ≤ m.global_row r
      ∧ m.global_row r < m.block_size * req := by
  have hgr : m.global_row r
      = m.block_size * (m.ghosts.getD
          ((r - m.block_size * m.size_owned) / m.block_size) 0)
        + (r - m.block_size * m.size_owned) % m.block_size := by
    simp only [IndexMap.global_row]
    rw [if_neg hr1]
  have hmod : (r - m.block_size * m.size_owned) % m.block_size
      < m.block_size := Nat.mod_lt _ hbs
  have h1 : m.block_size * rsq
      ≤ m.block_size * (m.ghosts.getD
          ((r - m.block_size * m.size_owned) / m.block_size) 0) :=
    Nat.mul_le_mul_left _ hlo
  have h2 : m.block_size * ((m.ghosts.getD
        ((r - m.block_size * m.size_owned) / m.block_size) 0) + 1)
      ≤ m.block_size * req :=
    Nat.mul_le_mul_left _ hhi
  rw [Nat.mul_add, Nat.mul_one] at h2
  omega

/-! ### The globalized single-process call sequence -/

/-- The single-process image of a multi-process insertion plan: each
process's calls with the rows rebased to global element indices through
that process's row IndexMap. -/
def globalizedCalls (maps0 : List IndexMap) (P : Nat)
    (callsAll : List (List (List Nat × List Nat))) :
    List (List Nat × List Nat) :=
  (List.range P).flatMap (fun p =>
    (callsAll.getD p []).map (fun c =>
      (c.1.map ((maps0.getD p default).global_row), c.2)))

lemma colsFor_globalized_mem (maps0 : List IndexMap) (P : Nat)
    (callsAll : List (List (List Nat × List Nat))) (G J : Nat) :
    J ∈ colsFor (globalizedCalls maps0 P callsAll) G
      ↔ ∃ p, p < P ∧ ∃ r, J ∈ colsFor (callsAll.getD p []) r
          ∧ G = (maps0.getD p default).global_row r := by
  rw [colsFor_mem]
  constructor
  · rintro ⟨cg, hcg, hG, hJ⟩
    rcases List.mem_flatMap.mp hcg with ⟨p, hp, hcp⟩
    rcases List.mem_map.mp hcp with ⟨c, hc, hce⟩
    subst hce
    rcases List.mem_map.mp hG with ⟨r, hr, hGr⟩
    exact ⟨p, List.mem_range.mp hp, r,
      (colsFor_mem _ _ _).mpr ⟨c, hc, hr, hJ⟩, hGr.symm⟩
  · rintro ⟨p, hp, r, hJ, hG⟩
    rcases (colsFor_mem _ _ _).mp hJ with ⟨c, hc, hr, hJc⟩
    refine ⟨(c.1.map ((maps0.getD p default).global_row), c.2),
      List.mem_flatMap.mpr ⟨p, List.mem_range.mpr hp,
        List.mem_map.mpr ⟨c, hc, rfl⟩⟩, ?_, hJc⟩
    rw [hG]
    exact List.mem_map.mpr ⟨r, hr, rfl⟩

/-! ### One process's apply() result -/

lemma apply_one_spec (P q : Nat) (hP : 1 < P) (bs0 : Nat) (hbs : 0 < bs0)
    (m0 m1 : IndexMap) (calls : List (List Nat × List Nat))
    (hb0 : m0.block_size = bs0) (hre0 : m0.range_start ≤ m0.range_end)
    (received : List (Nat × Nat))
    (hrb : ∀ z ∈ received,
      bs0 * m0.range_start ≤ z.1 ∧ z.1 < bs0 * m0.range_end) :
    ∃ v, (run_insert_local_global (SparsityPattern.create P q m0 m1)
          calls).apply_with received = Except.ok v
      ∧ v.im0 = m0
      ∧ ∀ x, x ∈ v.entriesGlobal
          ↔ ((∃ r, r < bs0 * m0.size_owned
                ∧ x.1 = bs0 * m0.range_start + r
                ∧ x.2 ∈ colsFor calls r)
             ∨ x ∈ received) := by
  have hm1 : ¬P = 1 := by omega
  have hfr := run_create_frame P q m0 m1 calls hm1
  have him0 : (run_insert_local_global (SparsityPattern.create P q m0 m1)
      calls).im0 = m0 := congrArg (fun t => t.2.2.1) hfr
  have him1 : (run_insert_local_global (SparsityPattern.create P q m0 m1)
      calls).im1 = m1 := congrArg (fun t => t.2.2.2.1) hfr
  have hmpi : (run_insert_local_global (SparsityPattern.create P q m0 m1)
      calls).mpi_size = P := congrArg Prod.fst hfr
  rcases run_create_lengths P q m0 m1 calls hm1 with ⟨hdl, hol⟩
  rcases insert_received_fold_spec
      (run_insert_local_global (SparsityPattern.create P q m0 m1) calls).im0
      (run_insert_local_global (SparsityPattern.create P q m0 m1) calls).im1
      (by rw [him0, hb0]; exact hbs)
      (by rw [him0]; exact hre0)
      received
      (run_insert_local_global (SparsityPattern.create P q m0 m1) calls)
      (by rw [him0]; exact hdl)
      (by rw [him0]; exact hol)
      (by intro z hz
          rw [him0, hb0]
          exact hrb z hz) with
    ⟨sp2, hfold, hfr2, hdl2, hol2, hnl2, hent2⟩
  rw [him0, hb0] at hent2
  refine ⟨{ sp2 with non_local := [] }, ?_, ?_, ?_⟩
  · unfold SparsityPattern.apply_with
    rw [if_pos (show 1 < (run_insert_local_global
        (SparsityPattern.create P q m0 m1) calls).mpi_size by
      rw [hmpi]; exact hP)]
    rw [show (run_insert_local_global (SparsityPattern.create P q m0 m1)
        calls).insert_received received = Except.ok sp2 from hfold]
  · show sp2.im0 = m0
    have h := congrArg (fun t : Nat × Nat × IndexMap × IndexMap × Finset Nat =>
      t.2.2.1) hfr2
    rw [show sp2.im0 = (run_insert_local_global
        (SparsityPattern.create P q m0 m1) calls).im0 from h, him0]
  · intro x
    rw [entriesGlobal_mem]
    have hvim : ({ sp2 with non_local := [] } : SparsityPattern).im0
        = m0 := by
      show sp2.im0 = m0
      have h := congrArg
        (fun t : Nat × Nat × IndexMap × IndexMap × Finset Nat =>
          t.2.2.1) hfr2
      rw [show sp2.im0 = (run_insert_local_global
          (SparsityPattern.create P q m0 m1) calls).im0 from h, him0]
    rw [hvim, hb0]
    show (∃ y ∈ sp2.entriesLocal,
        x = (bs0 * m0.range_start + y.1, y.2)) ↔ _
    rw [hent2]
    constructor
    · rintro ⟨y, hy, hxe⟩
      rcases Finset.mem_union.mp hy with hyr | hyv
      · left
        rcases (run_create_entries_mem P q m0 m1 calls hm1 y).mp hyr with
          ⟨hy1, hy2⟩
        rw [hb0] at hy1
        refine ⟨y.1, hy1, by rw [hxe], ?_⟩
        have hx2 : x.2 = y.2 := by rw [hxe]
        rw [hx2]
        exact hy2
      · right
        rcases List.mem_map.mp (List.mem_toFinset.mp hyv) with ⟨z, hz, hze⟩
        subst hze
        rcases hrb z hz with ⟨hzl, hzh⟩
        have hx : x = z := by
          rw [hxe]
          show (bs0 * m0.range_start + (z.1 - bs0 * m0.range_start), z.2) = z
          have h1 : bs0 * m0.range_start + (z.1 - bs0 * m0.range_start)
              = z.1 := by omega
          rw [h1]
        rw [hx]
        exact hz
    · rintro (⟨r, hr, hx1, hcols⟩ | hxr)
      · refine ⟨(r, x.2), Finset.mem_union_left _ ?_, ?_⟩
        · apply (run_create_entries_mem P q m0 m1 calls hm1 (r, x.2)).mpr
          constructor
          · show r < m0.block_size * m0.size_owned
            rw [hb0]
            exact hr
          · exact hcols
        · exact Prod.ext_iff.mpr ⟨hx1, rfl⟩
      · refine ⟨(x.1 - bs0 * m0.range_start, x.2),
          Finset.mem_union_right _ ?_, ?_⟩
        · exact List.mem_toFinset.mpr (List.mem_map.mpr ⟨x, hxr, rfl⟩)
        · rcases hrb x hxr with ⟨hxl, hxh⟩
          apply Prod.ext_iff.mpr
          refine ⟨?_, rfl⟩
          show x.1 = bs0 * m0.range_start + (x.1 - bs0 * m0.range_start)
          omega

/-! ### System-level exchange characterization -/

lemma run_send_pairs (P p : Nat) (m0 m1 : IndexMap)
    (calls : List (List Nat × List Nat)) (hm1 : ¬P = 1) :
    (run_insert_local_global (SparsityPattern.create P p m0 m1)
        calls).non_local_send_pairs
      = (run_insert_local_global (SparsityPattern.create P p m0 m1)
          calls).non_local.map (fun e =>
            (m0.ghost_owner_of e.1, (m0.global_row e.1, e.2))) := by
  have him0 : (run_insert_local_global (SparsityPattern.create P p m0 m1)
      calls).im0 = m0 :=
    congrArg (fun t => t.2.2.1) (run_create_frame P p m0 m1 calls hm1)
  have h := non_local_send_pairs_eq
    (run_insert_local_global (SparsityPattern.create P p m0 m1) calls)
    (by intro e he
        rw [him0]
        exact ((run_create_non_local_mem P p m0 m1 calls hm1 e).mp he).1)
  rw [him0] at h
  exact h

lemma received_run_mem (P : Nat) (hm1 : ¬P = 1)
    (maps0 maps1 : List IndexMap)
    (callsAll : List (List (List Nat × List Nat)))
    (sys1 : List SparsityPattern)
    (hsys1 : sys1 = (List.range P).map (fun p =>
      run_insert_local_global
        (SparsityPattern.create P p (maps0.getD p default)
          (maps1.getD p default)) (callsAll.getD p [])))
    (q : Nat) (x : Nat × Nat) :
    x ∈ system_received sys1 q
      ↔ ∃ p, p < P ∧ ∃ r,
          ¬r < (maps0.getD p default).block_size
              * (maps0.getD p default).size_owned
          ∧ x.2 ∈ colsFor (callsAll.getD p []) r
          ∧ (maps0.getD p default).ghost_owner_of r = q
          ∧ x.1 = (maps0.getD p default).global_row r := by
  subst hsys1
  rw [system_received_mem]
  constructor
  · rintro ⟨sp, hsp, hmem⟩
    rcases List.mem_map.mp hsp with ⟨p, hpm, hpe⟩
    subst hpe
    have hp := List.mem_range.mp hpm
    rw [run_send_pairs P p (maps0.getD p default) (maps1.getD p default)
      (callsAll.getD p []) hm1] at hmem
    rcases List.mem_map.mp hmem with ⟨e, he, hee⟩
    have h1 : (maps0.getD p default).ghost_owner_of e.1 = q :=
      congrArg Prod.fst hee
    have h2 : (maps0.getD p default).global_row e.1 = x.1 :=
      congrArg (fun t : Nat × Nat × Nat => t.2.1) hee
    have h3 : e.2 = x.2 :=
      congrArg (fun t : Nat × Nat × Nat => t.2.2) hee
    rcases (run_create_non_local_mem P p (maps0.getD p default)
        (maps1.getD p default) (callsAll.getD p []) hm1 e).mp he with
      ⟨hlt, hcf⟩
    refine ⟨p, hp, e.1, hlt, ?_, h1, h2.symm⟩
    rw [← h3]
    exact hcf
  · rintro ⟨p, hp, r, hlt, hcf, hq, hx1⟩
    refine ⟨run_insert_local_global
        (SparsityPattern.create P p (maps0.getD p default)
          (maps1.getD p default)) (callsAll.getD p []),
      List.mem_map.mpr ⟨p, List.mem_range.mpr hp, rfl⟩, ?_⟩
    rw [run_send_pairs P p (maps0.getD p default) (maps1.getD p default)
      (callsAll.getD p []) hm1]
    apply List.mem_map.mpr
    refine ⟨(r, x.2), ?_, ?_⟩
    · exact (run_create_non_local_mem P p (maps0.getD p default)
        (maps1.getD p default) (callsAll.getD p []) hm1 (r, x.2)).mpr
        ⟨hlt, hcf⟩
    · apply Prod.ext_iff.mpr
      refine ⟨hq, ?_⟩
      apply Prod.ext_iff.mpr
      exact ⟨hx1.symm, rfl⟩

lemma received_bound (P : Nat) (hP : 1 < P) (bs0 : Nat) (hbs : 0 < bs0)
    (maps0 maps1 : List IndexMap)
    (callsAll : List (List (List Nat × List Nat)))
    (hbsall : ∀ p, p < P → (maps0.getD p default).block_size = bs0)
    (hgc : ∀ p, p < P → ∀ g, g < (maps0.getD p default).ghosts.length →
      ((maps0.getD p default).ghost_owners.getD g 0 < P
       ∧ ¬(maps0.getD p default).ghost_owners.getD g 0 = p
       ∧ (maps0.getD ((maps0.getD p default).ghost_owners.getD g 0)
            default).range_start ≤ (maps0.getD p default).ghosts.getD g 0
       ∧ (maps0.getD p default).ghosts.getD g 0
           < (maps0.getD ((maps0.getD p default).ghost_owners.getD g 0)
               default).range_end))
    (hrows : ∀ p, p < P → ∀ c ∈ callsAll.getD p [], ∀ r ∈ c.1,
      r < bs0 * (maps0.getD p default).size_all)
    (sys1 : List SparsityPattern)
    (hsys1 : sys1 = (List.range P).map (fun p =>
      run_insert_local_global
        (SparsityPattern.create P p (maps0.getD p default)
          (maps1.getD p default)) (callsAll.getD p [])))
    (q : Nat) (hq : q < P) :
    ∀ x ∈ system_received sys1 q,
      bs0 * (maps0.getD q default).range_start ≤ x.1
      ∧ x.1 < bs0 * (maps0.getD q default).range_end := by
  intro x hx
  have hm1 : ¬P = 1 := by omega
  rcases (received_run_mem P hm1 maps0 maps1 callsAll sys1 hsys1 q x).mp
      hx with ⟨p, hp, r, hr1, hcf, hqe, hxe⟩
  rcases (colsFor_mem _ _ _).mp hcf with ⟨c, hc, hrc, _⟩
  have hb' := hbsall p hp
  have hrall : r < (maps0.getD p default).block_size
      * (maps0.getD p default).size_all := by
    rw [hb']
    exact hrows p hp c hc r hrc
  have hbs' : 0 < (maps0.getD p default).block_size := by
    rw [hb']
    exact hbs
  have hslot := ghost_slot_lt (maps0.getD p default) r hbs' hr1 hrall
  rcases hgc p hp _ hslot with ⟨hoP, hop, hlo, hhi⟩
  have hob : (maps0.getD p default).ghost_owner_of r
      = (maps0.getD p default).ghost_owners.getD
          ((r - (maps0.getD p default).block_size
            * (maps0.getD p default).size_owned)
            / (maps0.getD p default).block_size) 0 := rfl
  rw [hob] at hqe
  subst hqe
  have hrange := ghost_row_range (maps0.getD p default) _ _ r hbs' hr1
    hlo hhi
  rw [hxe, ← hb']
  exact hrange

/-- **C1**: refinement of the multi-process protocol by a single-process
run.  For any number of processes P > 1, any per-process row/column
IndexMaps with a common row block size, consistent ghost ownership
(each ghost node is owned by another rank and lies in that rank's owned
node range), pairwise disjoint owned node ranges, and any per-process
insert_local_global call sequences whose rows are legal local indices,
the collective apply() succeeds, and the union over all processes of the
globalized diagonal+off-diagonal entries equals the entry set of a
single-process run over the same insertions with rows rebased to global
indices; the per-process globalized entry sets are pairwise disjoint, so
no entry is lost or duplicated across the exchange. -/
theorem c1_apply_refines_single_run
    (P : Nat) (hP : 1 < P) (bs0 N : Nat) (hbs : 0 < bs0)
    (maps0 maps1 : List IndexMap)
    (callsAll : List (List (List Nat × List Nat)))
    (imS im1S : IndexMap)
    (himS : imS.block_size = bs0 ∧ imS.range_start = 0 ∧ imS.range_end = N)
    (hbsall : ∀ p, p < P → (maps0.getD p default).block_size = bs0)
    (hre : ∀ p, p < P →
      (maps0.getD p default).range_start ≤ (maps0.getD p default).range_end)
    (hN : ∀ p, p < P → (maps0.getD p default).range_end ≤ N)
    (hgc : ∀ p, p < P → ∀ g, g < (maps0.getD p default).ghosts.length →
      ((maps0.getD p default).ghost_owners.getD g 0 < P
       ∧ ¬(maps0.getD p default).ghost_owners.getD g 0 = p
       ∧ (maps0.getD ((maps0.getD p default).ghost_owners.getD g 0)
            default).range_start ≤ (maps0.getD p default).ghosts.getD g 0
       ∧ (maps0.getD p default).ghosts.getD g 0
           < (maps0.getD ((maps0.getD p default).ghost_owners.getD g 0)
               default).range_end))
    (hdisj : ∀ p, p < P → ∀ q2, q2 < P → ¬p = q2 →
      ((maps0.getD p default).range_end ≤ (maps0.getD q2 default).range_start
       ∨ (maps0.getD q2 default).range_end
           ≤ (maps0.getD p default).range_start))
    (hrows : ∀ p, p < P → ∀ c ∈ callsAll.getD p [], ∀ r ∈ c.1,
      r < bs0 * (maps0.getD p default).size_all)
    (sys1 : List SparsityPattern)
    (hsys1 : sys1 = (List.range P).map (fun p =>
      run_insert_local_global
        (SparsityPattern.create P p (maps0.getD p default)
          (maps1.getD p default)) (callsAll.getD p []))) :
    ∃ sys2, system_apply sys1 = Except.ok sys2
      ∧ (∀ q1 q2, q1 < P → q2 < P → ¬q1 = q2 →
          Disjoint ((sys2.getD q1 default).entriesGlobal)
            ((sys2.getD q2 default).entriesGlobal))
      ∧ (Finset.range P).biUnion
            (fun q => (sys2.getD q default).entriesGlobal)
          = (run_insert_global (SparsityPattern.create 1 0 imS im1S)
              (globalizedCalls maps0 P callsAll)).entriesLocal := by
  have hm1 : ¬P = 1 := by omega
  have hget1 : ∀ p, p < P → sys1.getD p default
      = run_insert_local_global
          (SparsityPattern.create P p (maps0.getD p default)
            (maps1.getD p default)) (callsAll.getD p []) := by
    intro p hp
    rw [hsys1]
    exact map_range_getD _ P p default hp
  have hlen1 : sys1.length = P := by
    rw [hsys1, List.length_map, List.length_range]
  have hrbnd : ∀ q, q < P → ∀ x ∈ system_received sys1 q,
      bs0 * (maps0.getD q default).range_start ≤ x.1
      ∧ x.1 < bs0 * (maps0.getD q default).range_end :=
    fun q hq => received_bound P hP bs0 hbs maps0 maps1 callsAll hbsall
      hgc hrows sys1 hsys1 q hq
  set gfun := fun q => ((sys1.getD q default).apply_with
      (system_received sys1 q)).toOption.getD default with hgdef
  have hgq : ∀ q, q < P →
      ((sys1.getD q default).apply_with (system_received sys1 q)
          = Except.ok (gfun q))
      ∧ ∀ x, x ∈ (gfun q).entriesGlobal
          ↔ ((∃ r, r < bs0 * (maps0.getD q default).size_owned
                ∧ x.1 = bs0 * (maps0.getD q default).range_start + r
                ∧ x.2 ∈ colsFor (callsAll.getD q []) r)
             ∨ x ∈ system_received sys1 q) := by
    intro q hq
    rcases apply_one_spec P q hP bs0 hbs (maps0.getD q default)
        (maps1.getD q default) (callsAll.getD q []) (hbsall q hq)
        (hre q hq) (system_received sys1 q) (hrbnd q hq) with
      ⟨v, hv, hvi, hvx⟩
    have hfq : (sys1.getD q default).apply_with (system_received sys1 q)
        = Except.ok v := by
      rw [hget1 q hq]
      exact hv
    have hgv : gfun q = v := by
      rw [hgdef]
      show ((sys1.getD q default).apply_with
        (system_received sys1 q)).toOption.getD default = v
      rw [hfq]
      rfl
    rw [hgv]
    exact ⟨hfq, hvx⟩
  have hsysa : system_apply sys1
      = Except.ok ((List.range P).map gfun) := by
    have hdef : system_apply sys1 = (List.range sys1.length).mapM
        (fun p => (sys1.getD p default).apply_with
          (system_received sys1 p)) := rfl
    rw [hdef, hlen1]
    exact mapM_except_ok _ gfun (List.range P)
      (fun q hqm => (hgq q (List.mem_range.mp hqm)).1)
  have hsget : ∀ q, q < P →
      ((List.range P).map gfun).getD q default = gfun q := by
    intro q hq
    exact map_range_getD gfun P q default hq
  have hbound : ∀ q, q < P → ∀ x, x ∈ (gfun q).entriesGlobal →
      bs0 * (maps0.getD q default).range_start ≤ x.1
      ∧ x.1 < bs0 * (maps0.getD q default).range_end := by
    intro q hq x hx
    rcases ((hgq q hq).2 x).mp hx with ⟨r, hr, hx1, _⟩ | hxr
    · have hsplit := range_split (maps0.getD q default) (hre q hq)
      rw [hbsall q hq] at hsplit
      omega
    · exact hrbnd q hq x hxr
  refine ⟨(List.range P).map gfun, hsysa, ?_, ?_⟩
  · intro q1 q2 hq1 hq2 hne
    rw [hsget q1 hq1, hsget q2 hq2, Finset.disjoint_left]
    intro x hx1 hx2
    have hb1 := hbound q1 hq1 x hx1
    have hb2 := hbound q2 hq2 x hx2
    rcases hdisj q1 hq1 q2 hq2 hne with h | h
    · have hs := Nat.mul_le_mul_left bs0 h
      omega
    · have hs := Nat.mul_le_mul_left bs0 h
      omega
  · apply Finset.ext
    intro x
    rw [Finset.mem_biUnion, single_run_entries_mem]
    have hdim : imS.block_size * imS.size_owned = bs0 * N := by
      unfold IndexMap.size_owned
      rw [himS.1, himS.2.1, himS.2.2, Nat.sub_zero]
    rw [hdim, colsFor_globalized_mem]
    constructor
    · rintro ⟨q, hqm, hx⟩
      have hq := Finset.mem_range.mp hqm
      rw [hsget q hq] at hx
      rcases ((hgq q hq).2 x).mp hx with ⟨r, hr, hx1, hcols⟩ | hxr
      · constructor
        · have hsplit := range_split (maps0.getD q default) (hre q hq)
          rw [hbsall q hq] at hsplit
          have hNq := Nat.mul_le_mul_left bs0 (hN q hq)
          omega
        · have hgr := owned_row_global (maps0.getD q default) r
            (by rw [hbsall q hq]; exact hr)
          rw [hbsall q hq] at hgr
          exact ⟨q, hq, r, hcols, by rw [hx1, hgr]⟩
      · constructor
        · have hb := hrbnd q hq x hxr
          have hNq := Nat.mul_le_mul_left bs0 (hN q hq)
          omega
        · rcases (received_run_mem P hm1 maps0 maps1 callsAll sys1 hsys1
              q x).mp hxr with ⟨p, hp, r, hr1, hcf, hqe, hxe⟩
          exact ⟨p, hp, r, hcf, hxe⟩
    · rintro ⟨hx1, hx2⟩
      rcases hx2 with ⟨p, hp, r, hcf, hG⟩
      rcases (colsFor_mem _ _ _).mp hcf with ⟨c, hc, hrc, _⟩
      have hb' := hbsall p hp
      have hrall : r < (maps0.getD p default).block_size
          * (maps0.getD p default).size_all := by
        rw [hb']
        exact hrows p hp c hc r hrc
      have hbs' : 0 < (maps0.getD p default).block_size := by
        rw [hb']
        exact hbs
      by_cases hro : r < (maps0.getD p default).block_size
          * (maps0.getD p default).size_owned
      · refine ⟨p, Finset.mem_range.mpr hp, ?_⟩
        rw [hsget p hp]
        apply ((hgq p hp).2 x).mpr
        left
        have hgr := owned_row_global (maps0.getD p default) r hro
        refine ⟨r, ?_, ?_, hcf⟩
        · rw [← hb']
          exact hro
        · rw [hG, hgr, hb']
      · have hslot := ghost_slot_lt (maps0.getD p default) r hbs' hro
          hrall
        rcases hgc p hp _ hslot with ⟨hoP, hop, hlo, hhi⟩
        refine ⟨(maps0.getD p default).ghost_owners.getD
            ((r - (maps0.getD p default).block_size
              * (maps0.getD p default).size_owned)
              / (maps0.getD p default).block_size) 0,
          Finset.mem_range.mpr hoP, ?_⟩
        rw [hsget _ hoP]
        apply ((hgq _ hoP).2 x).mpr
        right
        apply (received_run_mem P hm1 maps0 maps1 callsAll sys1 hsys1
          _ x).mpr
        exact ⟨p, hp, r, hro, hcf, rfl, hG⟩

/-- Witness for C1: a concrete two-process run (block size 1, three
global rows, one ghost row on each side) at which the refinement theorem
applies with every hypothesis discharged by evaluation. -/
theorem c1_apply_refines_single_run_witness :
    ∃ sys2, system_apply ((List.range 2).map (fun p =>
        run_insert_local_global
          (SparsityPattern.create 2 p
            (([⟨1, 0, 2, [2], [1], 3⟩, ⟨1, 2, 3, [1], [0], 3⟩] :
                List IndexMap).getD p default)
            (([⟨1, 0, 2, [2], [1], 3⟩, ⟨1, 2, 3, [1], [0], 3⟩] :
                List IndexMap).getD p default))
          (([[([0, 2], [0, 1])], [([0, 1], [2])]] :
              List (List (List Nat × List Nat))).getD p [])))
      = Except.ok sys2
      ∧ (∀ q1 q2, q1 < 2 → q2 < 2 → ¬q1 = q2 →
          Disjoint ((sys2.getD q1 default).entriesGlobal)
            ((sys2.getD q2 default).entriesGlobal))
      ∧ (Finset.range 2).biUnion
            (fun q => (sys2.getD q default).entriesGlobal)
        = (run_insert_global
            (SparsityPattern.create 1 0 ⟨1, 0, 3, [], [], 3⟩
              ⟨1, 0, 3, [], [], 3⟩)
            (globalizedCalls [⟨1, 0, 2, [2], [1], 3⟩, ⟨1, 2, 3, [1], [0], 3⟩]
              2 [[([0, 2], [0, 1])], [([0, 1], [2])]])).entriesLocal :=
  c1_apply_refines_single_run 2 (by decide) 1 3 (by decide)
    [⟨1, 0, 2, [2], [1], 3⟩, ⟨1, 2, 3, [1], [0], 3⟩]
    [⟨1, 0, 2, [2], [1], 3⟩, ⟨1, 2, 3, [1], [0], 3⟩]
    [[([0, 2], [0, 1])], [([0, 1], [2])]]
    ⟨1, 0, 3, [], [], 3⟩ ⟨1, 0, 3, [], [], 3⟩
    (by decide) (by decide) (by decide) (by decide) (by decide)
    (by decide) (by decide) _ rfl

end SparsityModel
